import Mathlib

set_option maxHeartbeats 1000000

/-! Shallow embedding of src/server.js (shiptivitas-2).

The database table `clients` is modelled as a `List Client`; each SQL
UPDATE statement of the PUT handler becomes a `List.map` over the rows,
in the order the statements are executed.  JavaScript `NaN` inputs are
modelled as `none`, a missing body field as `none`, and JS string
truthiness (`if (status)`) as the string being nonempty. -/

/-- A row of the `clients` table: `id`, `name` (standing for all the
descriptive columns, which the server never touches), `status` (the
swimlane) and `priority` (rank within the lane). -/
@[ext]
structure Client where
  id : Int
  name : String
  status : String
  priority : Int
deriving DecidableEq

/-- The `{message, long_message}` error payload sent with HTTP 400. -/
structure MessageObj where
  message : String
  long_message : String
deriving DecidableEq

/-- Result shape of the two validate helpers in src/server.js. -/
inductive ValidationResult where
  | valid : ValidationResult
  | invalid : MessageObj → ValidationResult
deriving DecidableEq

/-- `validateId` (src/server.js lines 26-51).  The argument is the result
of `parseInt(req.params.id, 10)`; `none` stands for `NaN`.  The inner
query `select * from clients where id = ? limit 1` is `List.find?`. -/
def validateId (db : List Client) (id : Option Int) : ValidationResult :=
  match id with
  | none => .invalid ⟨"Invalid id provided.", "Id can only be integer."⟩
  | some i =>
    match db.find? (fun c => c.id == i) with
    | none => .invalid ⟨"Invalid id provided.", "Cannot find client with that id."⟩
    | some _ => .valid

/-- `validatePriority` (src/server.js lines 57-70).  It only rejects
`NaN` (modelled as `none`); every actual integer, including zero and
negative values, passes. -/
def validatePriority (priority : Option Int) : ValidationResult :=
  match priority with
  | none => .invalid ⟨"Invalid priority provided.", "Priority can only be positive integer."⟩
  | some _ => .valid

/-- Maximum of a list of integers, `none` on the empty list: the SQL
aggregate `SELECT MAX(priority) ... WHERE status = ?` (NULL on an empty
lane). -/
def listMax : List Int → Option Int
  | [] => none
  | x :: xs =>
    match listMax xs with
    | none => some x
    | some m => some (max x m)

/-- `SELECT MAX(priority) as maxPriority FROM clients WHERE status = ?`
(src/server.js lines 161-165). -/
def maxPriorityInLane (db : List Client) (s : String) : Option Int :=
  listMax ((db.filter (fun c => c.status == s)).map (fun c => c.priority))

/-- The JS expression `(row && row.maxPriority ? row.maxPriority : 0)`
(src/server.js line 166): the aggregate row always exists, NULL and the
number 0 are falsy. -/
def jsOrZero : Option Int → Int
  | none => 0
  | some v => if v = 0 then 0 else v

/-- Lane-change branch of the PUT handler (src/server.js lines 145-172):
decrement the old lane above the moved card, then either make room in
the destination lane at the given priority or append past the current
maximum, and finally write the new status and priority of the card. -/
def caseA (db : List Client) (client : Client) (s : String) (pr : Option Int) : List Client :=
  let db1 := db.map (fun c =>
    if c.status = client.status ∧ client.priority < c.priority then
      { c with priority := c.priority - 1 } else c)
  match pr with
  | some p =>
    let db2 := db1.map (fun c =>
      if c.status = s ∧ p ≤ c.priority then { c with priority := c.priority + 1 } else c)
    db2.map (fun c => if c.id = client.id then { c with status := s, priority := p } else c)
  | none =>
    let np := jsOrZero (maxPriorityInLane db1 s) + 1
    db1.map (fun c => if c.id = client.id then { c with status := s, priority := np } else c)

/-- Same-lane branch of the PUT handler (src/server.js lines 173-188):
if a priority is supplied and differs from the current one, shift the
block of cards between the two positions by one and write the new
priority of the card; otherwise do nothing. -/
def sameLane (db : List Client) (client : Client) (pr : Option Int) : List Client :=
  match pr with
  | some p =>
    if p ≠ client.priority then
      let db1 :=
        if client.priority < p then
          db.map (fun c =>
            if c.status = client.status ∧ client.priority < c.priority ∧ c.priority ≤ p then
              { c with priority := c.priority - 1 } else c)
        else if p < client.priority then
          db.map (fun c =>
            if c.status = client.status ∧ p ≤ c.priority ∧ c.priority < client.priority then
              { c with priority := c.priority + 1 } else c)
        else db
      db1.map (fun c => if c.id = client.id then { c with priority := p } else c)
    else db
  | none => db

/-- The update block of the PUT handler (src/server.js lines 141-192),
given the snapshot `client` of the row being updated.  The JS guard
`if (status && status !== client.status)` requires `status` to be
present, nonempty (truthy) and different from the current lane. -/
def putEngine (db : List Client) (client : Client) (st : Option String) (pr : Option Int) :
    List Client :=
  match st with
  | some s =>
    if s ≠ "" ∧ s ≠ client.status then caseA db client s pr
    else sameLane db client pr
  | none => sameLane db client pr

/-- HTTP outcome of the PUT route. -/
inductive PutResponse where
  | err : Nat → MessageObj → PutResponse
  | crash : PutResponse
  | ok : Nat → List Client → PutResponse
deriving DecidableEq

/-- The PUT `/api/v1/clients/:id` route (src/server.js lines 130-195).
Returns the HTTP response together with the table contents after the
request (the second component), so that absence of mutation is
expressible.  The two `.crash` branches are unreachable: `validateId`
succeeds only when the same `find?` succeeds. -/
def putRoute (db : List Client) (idParam : Option Int) (st : Option String) (pr : Option Int) :
    PutResponse × List Client :=
  match validateId db idParam with
  | .invalid m => (.err 400 m, db)
  | .valid =>
    match idParam with
    | none => (.crash, db)
    | some i =>
      match db.find? (fun c => c.id == i) with
      | none => (.crash, db)
      | some client =>
        let db1 := putEngine db client st pr
        (.ok 200 db1, db1)

/-- HTTP outcome of the GET list route. -/
inductive GetResponse where
  | err : Nat → MessageObj → GetResponse
  | ok : Nat → List Client → GetResponse
deriving DecidableEq

/-- The GET `/api/v1/clients` route (src/server.js lines 77-100), with
its optional `status` query parameter (`none` when absent; the empty
string is falsy in the JS guard `if (status)`). -/
def getClients (db : List Client) (statusQ : Option String) : GetResponse :=
  match statusQ with
  | some s =>
    if s ≠ "" then
      if s ≠ "backlog" ∧ s ≠ "in-progress" ∧ s ≠ "complete" then
        .err 400 ⟨"Invalid status provided.",
          "Status can only be one of the following: [backlog | in-progress | complete]."⟩
      else .ok 200 (db.filter (fun c => c.status == s))
    else .ok 200 db
  | none => .ok 200 db

/-! Specification-side notions: lane contents and the contiguity
invariant of the spec (section 3). -/

/-- Multiset of the priorities of the clients currently in lane `s`. -/
def lanePriorities (db : List Client) (s : String) : Multiset Int :=
  ((db.filter (fun c => c.status == s)).map (fun c => c.priority) : List Int)

/-- Number of clients currently in lane `s`. -/
def laneSize (db : List Client) (s : String) : Nat :=
  (db.filter (fun c => c.status == s)).length

/-- The multiset `{1, 2, ..., n}` of integers. -/
def range1 : Nat → Multiset Int
  | 0 => 0
  | n + 1 => ((n : Int) + 1) ::ₘ range1 n

/-- The spec invariant for one lane: its priorities are exactly
`{1, ..., N}` where `N` is the number of clients in the lane. -/
def laneContiguous (db : List Client) (s : String) : Prop :=
  lanePriorities db s = range1 (laneSize db s)

instance (db : List Client) (s : String) : Decidable (laneContiguous db s) :=
  inferInstanceAs (Decidable (lanePriorities db s = range1 (laneSize db s)))

/-- The spec invariant: every lane is contiguous. -/
def Invariant (db : List Client) : Prop :=
  ∀ s : String, laneContiguous db s

/-- The lane in which the updated client ends up: the requested status
when the lane-change guard of the PUT handler fires, otherwise its
current lane. -/
def destLane (client : Client) (st : Option String) : String :=
  match st with
  | some s => if s ≠ "" ∧ s ≠ client.status then s else client.status
  | none => client.status

/-- Range condition on a supplied priority: at least 1, and at most the
destination lane size (same-lane move) or one past it (lane change). -/
def PriorityOk (db : List Client) (client : Client) (st : Option String) (pr : Option Int) :
    Prop :=
  ∀ p : Int, pr = some p → 1 ≤ p ∧
    p ≤ (laneSize db (destLane client st) : Int) +
        (if destLane client st = client.status then 0 else 1)

/-! Basic facts about `range1`. -/

lemma card_range1 (n : Nat) : Multiset.card (range1 n) = n := by
  induction n with
  | zero => rfl
  | succ n ih => simp [range1, ih]

lemma mem_range1 {x : Int} {n : Nat} : x ∈ range1 n ↔ 1 ≤ x ∧ x ≤ (n : Int) := by
  induction n with
  | zero =>
    simp only [range1, Multiset.not_mem_zero, false_iff, not_and, not_le]
    intro h
    omega
  | succ n ih =>
    simp only [range1, Multiset.mem_cons, ih]
    constructor
    · rintro (rfl | ⟨h1, h2⟩) <;> constructor <;> push_cast <;> omega
    · rintro ⟨h1, h2⟩
      by_cases hx : x = (n : Int) + 1
      · exact Or.inl hx
      · right
        refine ⟨h1, ?_⟩
        push_cast at h2
        omega

lemma nodup_range1 (n : Nat) : (range1 n).Nodup := by
  induction n with
  | zero => simp [range1]
  | succ n ih =>
    rw [range1, Multiset.nodup_cons]
    refine ⟨fun h => ?_, ih⟩
    have := mem_range1.mp h
    omega

lemma range1_eq_cons {n : Nat} (h : 1 ≤ n) : range1 n = (n : Int) ::ₘ range1 (n - 1) := by
  cases n with
  | zero => omega
  | succ m =>
    show ((m : Int) + 1) ::ₘ range1 m = ((m + 1 : Nat) : Int) ::ₘ range1 m
    congr 1

/-- Closing the gap after removing priority `q` from a contiguous lane:
decrementing everything above `q` turns `{1..n}` into `{q} + {1..n-1}`. -/
lemma map_closeGap :
    ∀ (n : Nat) (q : Int), 1 ≤ q → q ≤ (n : Int) →
      (range1 n).map (fun p => if q < p then p - 1 else p) = q ::ₘ range1 (n - 1) := by
  intro n
  induction n with
  | zero =>
    intro q h1 h2
    exfalso
    omega
  | succ n ih =>
    intro q h1 h2
    rw [range1, Multiset.map_cons]
    by_cases hq : q = (n : Int) + 1
    · rw [if_neg (by omega)]
      have hid : (range1 n).map (fun p => if q < p then p - 1 else p)
          = (range1 n).map id := by
        refine Multiset.map_congr rfl fun x hx => ?_
        have := mem_range1.mp hx
        rw [if_neg (by omega)]
        rfl
      rw [hid, Multiset.map_id, hq]
      simp
    · have h2' : q ≤ (n : Int) := by omega
      have h1n : 1 ≤ n := by omega
      rw [if_pos (by omega), ih q h1 h2']
      have he : (n : Int) + 1 - 1 = (n : Int) := by ring
      rw [he, Multiset.cons_swap]
      congr 1
      have := range1_eq_cons h1n
      simp only [Nat.succ_sub_one]
      exact this.symm

/-- Making room at priority `d` in a contiguous lane: incrementing
everything at or above `d` and inserting `d` turns `{1..n}` into
`{1..n+1}`. -/
lemma map_makeRoom :
    ∀ (n : Nat) (d : Int), 1 ≤ d → d ≤ (n : Int) + 1 →
      d ::ₘ (range1 n).map (fun p => if d ≤ p then p + 1 else p) = range1 (n + 1) := by
  intro n
  induction n with
  | zero =>
    intro d h1 h2
    have : d = 1 := by omega
    subst this
    rfl
  | succ n ih =>
    intro d h1 h2
    rw [range1, Multiset.map_cons]
    by_cases hd : d ≤ (n : Int) + 1
    · rw [if_pos hd, Multiset.cons_swap, ih d h1 hd]
      show ((n : Int) + 1 + 1) ::ₘ range1 (n + 1) = range1 (n + 1 + 1)
      rw [show range1 (n + 1 + 1) = (((n + 1 : Nat) : Int) + 1) ::ₘ range1 (n + 1) from rfl]
      congr 1
    · have hd' : d = (n : Int) + 2 := by omega
      rw [if_neg hd]
      have hid : (range1 n).map (fun p => if d ≤ p then p + 1 else p)
          = (range1 n).map id := by
        refine Multiset.map_congr rfl fun x hx => ?_
        have := mem_range1.mp hx
        rw [if_neg (by omega)]
        rfl
      rw [hid, Multiset.map_id, hd']
      have hc : range1 (n + 1 + 1) = ((n : Int) + 2) ::ₘ ((n : Int) + 1) ::ₘ range1 n := by
        show (((n + 1 : Nat) : Int) + 1) ::ₘ ((n : Int) + 1) ::ₘ range1 n = _
        congr 1
      rw [hc]

/-! Facts about `listMax` (the SQL MAX aggregate). -/

lemma listMax_spec (l : List Int) :
    (l = [] ∧ listMax l = none) ∨ ∃ m, listMax l = some m ∧ m ∈ l ∧ ∀ y ∈ l, y ≤ m := by
  induction l with
  | nil => exact Or.inl ⟨rfl, rfl⟩
  | cons x xs ih =>
    right
    rcases ih with ⟨he, hn⟩ | ⟨m, hm, hmem, hle⟩
    · refine ⟨x, ?_, List.mem_cons_self x xs, ?_⟩
      · simp [listMax, hn]
      · intro y hy
        rcases List.mem_cons.mp hy with rfl | hy'
        · exact le_refl _
        · rw [he] at hy'
          cases hy'
    · refine ⟨max x m, ?_, ?_, ?_⟩
      · simp [listMax, hm]
      · rcases max_choice x m with h | h
        · rw [h]; exact List.mem_cons_self x xs
        · rw [h]; exact List.mem_cons_of_mem x hmem
      · intro y hy
        rcases List.mem_cons.mp hy with rfl | hy'
        · exact le_max_left _ _
        · exact le_trans (hle y hy') (le_max_right _ _)

lemma listMax_perm {l₁ l₂ : List Int} (h : l₁.Perm l₂) : listMax l₁ = listMax l₂ := by
  induction h with
  | nil => rfl
  | cons x _ ih => simp only [listMax, ih]
  | swap x y l =>
    rcases h' : listMax l with _ | m
    · simp only [listMax, h']
      rw [max_comm]
    · simp only [listMax, h']
      rw [max_left_comm]
  | trans _ _ ih₁ ih₂ => exact ih₁.trans ih₂

/-- On a lane whose priorities are exactly `{1..n}`, the MAX query
returns `n` (or NULL when the lane is empty). -/
lemma listMax_of_range1 {l : List Int} {n : Nat} (h : (l : Multiset Int) = range1 n) :
    listMax l = if n = 0 then none else some (n : Int) := by
  rcases Nat.eq_zero_or_pos n with hn | hn
  · subst hn
    have hl : l = [] := (Multiset.coe_eq_zero l).mp (by simpa [range1] using h)
    simp [hl, listMax]
  · have hne : (n : Int) ∈ l := by
      rw [← Multiset.mem_coe, h, mem_range1]
      omega
    rcases listMax_spec l with ⟨he, _⟩ | ⟨m, hm, hmem, hle⟩
    · rw [he] at hne
      cases hne
    · have hmr : m ∈ range1 n := by
        rw [← h]
        exact Multiset.mem_coe.mpr hmem
      have h2 := (mem_range1.mp hmr).2
      have h3 := hle _ hne
      have hmn : m = (n : Int) := le_antisymm h2 h3
      rw [hm, hmn, if_neg (by omega)]

/-! Lane decomposition lemmas. -/

lemma lanePriorities_cons (a : Client) (l : List Client) (s : String) :
    lanePriorities (a :: l) s =
      if a.status = s then a.priority ::ₘ lanePriorities l s else lanePriorities l s := by
  by_cases h : a.status = s
  · simp [lanePriorities, List.filter_cons, h]
  · simp [lanePriorities, List.filter_cons, h]

lemma card_lanePriorities (db : List Client) (s : String) :
    Multiset.card (lanePriorities db s) = laneSize db s := by
  simp [lanePriorities, laneSize]

lemma laneContiguous_of_eq_range1 {db : List Client} {s : String} {n : Nat}
    (h : lanePriorities db s = range1 n) : laneContiguous db s := by
  have hc : laneSize db s = n := by
    rw [← card_lanePriorities, h, card_range1]
  unfold laneContiguous
  rw [h, hc]

lemma laneContiguous_of_not_mem {db : List Client} {s : String}
    (h : ∀ c ∈ db, c.status ≠ s) : laneContiguous db s := by
  have hf : db.filter (fun c => c.status == s) = [] := by
    rw [List.filter_eq_nil_iff]
    intro c hc
    simpa using h c hc
  apply laneContiguous_of_eq_range1 (n := 0)
  simp [lanePriorities, hf, range1]

lemma lanePriorities_perm {db₁ db₂ : List Client} (h : db₁.Perm db₂) (s : String) :
    lanePriorities db₁ s = lanePriorities db₂ s :=
  Multiset.coe_eq_coe.mpr ((h.filter _).map _)

lemma laneSize_perm {db₁ db₂ : List Client} (h : db₁.Perm db₂) (s : String) :
    laneSize db₁ s = laneSize db₂ s :=
  (h.filter _).length_eq

lemma invariant_perm {db₁ db₂ : List Client} (h : db₁.Perm db₂) :
    Invariant db₁ ↔ Invariant db₂ := by
  unfold Invariant laneContiguous
  constructor <;> intro hi s
  · rw [← lanePriorities_perm h, ← laneSize_perm h]
    exact hi s
  · rw [lanePriorities_perm h, laneSize_perm h]
    exact hi s

/-- A row map that rewrites only the `priority` field acts on each lane
as the corresponding map on the priority multiset. -/
lemma lanePriorities_map_update (db : List Client) (φ : String → Int → Int) (s : String) :
    lanePriorities (db.map (fun c => { c with priority := φ c.status c.priority })) s
      = (lanePriorities db s).map (φ s) := by
  induction db with
  | nil => rfl
  | cons a l ih =>
    rw [List.map_cons, lanePriorities_cons, lanePriorities_cons]
    by_cases h : a.status = s
    · rw [if_pos (show ({ a with priority := φ a.status a.priority } : Client).status = s from h),
        if_pos h, Multiset.map_cons, ih, h]
    · rw [if_neg (show ¬ ({ a with priority := φ a.status a.priority } : Client).status = s from h),
        if_neg h, ih]

/-! Helpers relating the row maps of the engine to multiset maps. -/

lemma shift_id (P : Prop) [Decidable P] (c : Client) (x : Int) :
    (if P then { c with priority := x } else c).id = c.id := by
  by_cases h : P <;> simp [h]

lemma shift_status (P : Prop) [Decidable P] (c : Client) (x : Int) :
    (if P then { c with priority := x } else c).status = c.status := by
  by_cases h : P <;> simp [h]

lemma shift_name (P : Prop) [Decidable P] (c : Client) (x : Int) :
    (if P then { c with priority := x } else c).name = c.name := by
  by_cases h : P <;> simp [h]

/-- A by-id row update leaves a list alone when no row has the id. -/
lemma map_id_of_ne {l : List Client} {iid : Int} (h : ∀ c ∈ l, c.id ≠ iid)
    (f : Client → Client) :
    l.map (fun c => if c.id = iid then f c else c) = l := by
  have : ∀ c ∈ l, (fun c => if c.id = iid then f c else c) c = id c := fun c hc => by
    show (if c.id = iid then f c else c) = c
    rw [if_neg (h c hc)]
  rw [List.map_congr_left this, List.map_id]

lemma mem_cons_ne_id {client : Client} {rest : List Client}
    (hids : ((client :: rest).map (fun c => c.id)).Nodup) :
    ∀ c ∈ rest, c.id ≠ client.id := by
  rw [List.map_cons, List.nodup_cons] at hids
  intro c hc he
  exact hids.1 (he ▸ List.mem_map_of_mem _ hc)

/-- The old-lane decrement UPDATE acts on its own lane as a pointwise
shift of the priority multiset. -/
lemma lane_map_m1_eq (db : List Client) (t : Int) (s : String) :
    lanePriorities (db.map (fun c => if c.status = s ∧ t < c.priority then
        { c with priority := c.priority - 1 } else c)) s
      = (lanePriorities db s).map (fun p => if t < p then p - 1 else p) := by
  rw [show (fun c => if c.status = s ∧ t < c.priority then
        { c with priority := c.priority - 1 } else c)
      = fun c : Client => { c with priority :=
          if c.status = s ∧ t < c.priority then c.priority - 1 else c.priority } by
    funext c
    by_cases h : c.status = s ∧ t < c.priority
    · rw [if_pos h, if_pos h]
    · rw [if_neg h, if_neg h]]
  rw [lanePriorities_map_update db
    (fun st pp => if st = s ∧ t < pp then pp - 1 else pp) s]
  refine Multiset.map_congr rfl fun x _ => ?_
  by_cases h : t < x
  · rw [if_pos ⟨rfl, h⟩, if_pos h]
  · rw [if_neg (fun hh => h hh.2), if_neg h]

/-- The old-lane decrement UPDATE leaves every other lane alone. -/
lemma lane_map_m1_ne (db : List Client) {s0 : String} (t : Int) {s : String} (h : s ≠ s0) :
    lanePriorities (db.map (fun c => if c.status = s0 ∧ t < c.priority then
        { c with priority := c.priority - 1 } else c)) s = lanePriorities db s := by
  rw [show (fun c => if c.status = s0 ∧ t < c.priority then
        { c with priority := c.priority - 1 } else c)
      = fun c : Client => { c with priority :=
          if c.status = s0 ∧ t < c.priority then c.priority - 1 else c.priority } by
    funext c
    by_cases hc : c.status = s0 ∧ t < c.priority
    · rw [if_pos hc, if_pos hc]
    · rw [if_neg hc, if_neg hc]]
  rw [lanePriorities_map_update db
    (fun st pp => if st = s0 ∧ t < pp then pp - 1 else pp) s]
  have : ∀ x ∈ lanePriorities db s,
      (if s = s0 ∧ t < x then x - 1 else x) = id x := fun x _ => by
    rw [if_neg (fun hh => h hh.1)]
    rfl
  rw [Multiset.map_congr rfl this, Multiset.map_id]

/-- The destination-lane increment UPDATE acts on its own lane as a
pointwise shift of the priority multiset. -/
lemma lane_map_m2_eq (db : List Client) (t : Int) (s : String) :
    lanePriorities (db.map (fun c => if c.status = s ∧ t ≤ c.priority then
        { c with priority := c.priority + 1 } else c)) s
      = (lanePriorities db s).map (fun p => if t ≤ p then p + 1 else p) := by
  rw [show (fun c => if c.status = s ∧ t ≤ c.priority then
        { c with priority := c.priority + 1 } else c)
      = fun c : Client => { c with priority :=
          if c.status = s ∧ t ≤ c.priority then c.priority + 1 else c.priority } by
    funext c
    by_cases h : c.status = s ∧ t ≤ c.priority
    · rw [if_pos h, if_pos h]
    · rw [if_neg h, if_neg h]]
  rw [lanePriorities_map_update db
    (fun st pp => if st = s ∧ t ≤ pp then pp + 1 else pp) s]
  refine Multiset.map_congr rfl fun x _ => ?_
  by_cases h : t ≤ x
  · rw [if_pos ⟨rfl, h⟩, if_pos h]
  · rw [if_neg (fun hh => h hh.2), if_neg h]

/-- The destination-lane increment UPDATE leaves every other lane alone. -/
lemma lane_map_m2_ne (db : List Client) {s0 : String} (t : Int) {s : String} (h : s ≠ s0) :
    lanePriorities (db.map (fun c => if c.status = s0 ∧ t ≤ c.priority then
        { c with priority := c.priority + 1 } else c)) s = lanePriorities db s := by
  rw [show (fun c => if c.status = s0 ∧ t ≤ c.priority then
        { c with priority := c.priority + 1 } else c)
      = fun c : Client => { c with priority :=
          if c.status = s0 ∧ t ≤ c.priority then c.priority + 1 else c.priority } by
    funext c
    by_cases hc : c.status = s0 ∧ t ≤ c.priority
    · rw [if_pos hc, if_pos hc]
    · rw [if_neg hc, if_neg hc]]
  rw [lanePriorities_map_update db
    (fun st pp => if st = s0 ∧ t ≤ pp then pp + 1 else pp) s]
  have : ∀ x ∈ lanePriorities db s,
      (if s = s0 ∧ t ≤ x then x + 1 else x) = id x := fun x _ => by
    rw [if_neg (fun hh => h hh.1)]
    rfl
  rw [Multiset.map_congr rfl this, Multiset.map_id]

/-- The same-lane downward-move UPDATE acts on its lane as a pointwise
shift of the priority multiset. -/
lemma lane_map_dec_eq (db : List Client) (a b : Int) (s : String) :
    lanePriorities (db.map (fun c =>
        if c.status = s ∧ a < c.priority ∧ c.priority ≤ b then
          { c with priority := c.priority - 1 } else c)) s
      = (lanePriorities db s).map (fun p => if a < p ∧ p ≤ b then p - 1 else p) := by
  rw [show (fun c => if c.status = s ∧ a < c.priority ∧ c.priority ≤ b then
        { c with priority := c.priority - 1 } else c)
      = fun c : Client => { c with priority :=
          if c.status = s ∧ a < c.priority ∧ c.priority ≤ b then c.priority - 1
          else c.priority } by
    funext c
    by_cases h : c.status = s ∧ a < c.priority ∧ c.priority ≤ b
    · rw [if_pos h, if_pos h]
    · rw [if_neg h, if_neg h]]
  rw [lanePriorities_map_update db
    (fun st pp => if st = s ∧ a < pp ∧ pp ≤ b then pp - 1 else pp) s]
  refine Multiset.map_congr rfl fun x _ => ?_
  by_cases h : a < x ∧ x ≤ b
  · rw [if_pos ⟨rfl, h⟩, if_pos h]
  · rw [if_neg (fun hh => h hh.2), if_neg h]

/-- The same-lane downward-move UPDATE leaves other lanes alone. -/
lemma lane_map_dec_ne (db : List Client) {s0 : String} (a b : Int) {s : String} (h : s ≠ s0) :
    lanePriorities (db.map (fun c =>
        if c.status = s0 ∧ a < c.priority ∧ c.priority ≤ b then
          { c with priority := c.priority - 1 } else c)) s = lanePriorities db s := by
  rw [show (fun c => if c.status = s0 ∧ a < c.priority ∧ c.priority ≤ b then
        { c with priority := c.priority - 1 } else c)
      = fun c : Client => { c with priority :=
          if c.status = s0 ∧ a < c.priority ∧ c.priority ≤ b then c.priority - 1
          else c.priority } by
    funext c
    by_cases hc : c.status = s0 ∧ a < c.priority ∧ c.priority ≤ b
    · rw [if_pos hc, if_pos hc]
    · rw [if_neg hc, if_neg hc]]
  rw [lanePriorities_map_update db
    (fun st pp => if st = s0 ∧ a < pp ∧ pp ≤ b then pp - 1 else pp) s]
  have : ∀ x ∈ lanePriorities db s,
      (if s = s0 ∧ a < x ∧ x ≤ b then x - 1 else x) = id x := fun x _ => by
    rw [if_neg (fun hh => h hh.1)]
    rfl
  rw [Multiset.map_congr rfl this, Multiset.map_id]

/-- The same-lane upward-move UPDATE acts on its lane as a pointwise
shift of the priority multiset. -/
lemma lane_map_inc_eq (db : List Client) (a b : Int) (s : String) :
    lanePriorities (db.map (fun c =>
        if c.status = s ∧ a ≤ c.priority ∧ c.priority < b then
          { c with priority := c.priority + 1 } else c)) s
      = (lanePriorities db s).map (fun p => if a ≤ p ∧ p < b then p + 1 else p) := by
  rw [show (fun c => if c.status = s ∧ a ≤ c.priority ∧ c.priority < b then
        { c with priority := c.priority + 1 } else c)
      = fun c : Client => { c with priority :=
          if c.status = s ∧ a ≤ c.priority ∧ c.priority < b then c.priority + 1
          else c.priority } by
    funext c
    by_cases h : c.status = s ∧ a ≤ c.priority ∧ c.priority < b
    · rw [if_pos h, if_pos h]
    · rw [if_neg h, if_neg h]]
  rw [lanePriorities_map_update db
    (fun st pp => if st = s ∧ a ≤ pp ∧ pp < b then pp + 1 else pp) s]
  refine Multiset.map_congr rfl fun x _ => ?_
  by_cases h : a ≤ x ∧ x < b
  · rw [if_pos ⟨rfl, h⟩, if_pos h]
  · rw [if_neg (fun hh => h hh.2), if_neg h]

/-- The same-lane upward-move UPDATE leaves other lanes alone. -/
lemma lane_map_inc_ne (db : List Client) {s0 : String} (a b : Int) {s : String} (h : s ≠ s0) :
    lanePriorities (db.map (fun c =>
        if c.status = s0 ∧ a ≤ c.priority ∧ c.priority < b then
          { c with priority := c.priority + 1 } else c)) s = lanePriorities db s := by
  rw [show (fun c => if c.status = s0 ∧ a ≤ c.priority ∧ c.priority < b then
        { c with priority := c.priority + 1 } else c)
      = fun c : Client => { c with priority :=
          if c.status = s0 ∧ a ≤ c.priority ∧ c.priority < b then c.priority + 1
          else c.priority } by
    funext c
    by_cases hc : c.status = s0 ∧ a ≤ c.priority ∧ c.priority < b
    · rw [if_pos hc, if_pos hc]
    · rw [if_neg hc, if_neg hc]]
  rw [lanePriorities_map_update db
    (fun st pp => if st = s0 ∧ a ≤ pp ∧ pp < b then pp + 1 else pp) s]
  have : ∀ x ∈ lanePriorities db s,
      (if s = s0 ∧ a ≤ x ∧ x < b then x + 1 else x) = id x := fun x _ => by
    rw [if_neg (fun hh => h hh.1)]
    rfl
  rw [Multiset.map_congr rfl this, Multiset.map_id]

/-! Unfolded forms of the engine branches. -/

lemma caseA_some_def (db : List Client) (client : Client) (s : String) (p : Int) :
    caseA db client s (some p) =
      ((db.map (fun c => if c.status = client.status ∧ client.priority < c.priority then
          { c with priority := c.priority - 1 } else c)).map
        (fun c => if c.status = s ∧ p ≤ c.priority then
          { c with priority := c.priority + 1 } else c)).map
        (fun c => if c.id = client.id then { c with status := s, priority := p } else c) := rfl

lemma caseA_none_def (db : List Client) (client : Client) (s : String) :
    caseA db client s none =
      (db.map (fun c => if c.status = client.status ∧ client.priority < c.priority then
          { c with priority := c.priority - 1 } else c)).map
        (fun c => if c.id = client.id then
          { c with
            status := s,
            priority := jsOrZero (maxPriorityInLane
              (db.map (fun c2 =>
                if c2.status = client.status ∧ client.priority < c2.priority then
                  { c2 with priority := c2.priority - 1 } else c2)) s) + 1 }
          else c) := rfl

lemma sameLane_none_def (db : List Client) (client : Client) :
    sameLane db client none = db := rfl

lemma sameLane_some_def (db : List Client) (client : Client) (p : Int) :
    sameLane db client (some p) =
      if p ≠ client.priority then
        (if client.priority < p then
          db.map (fun c =>
            if c.status = client.status ∧ client.priority < c.priority ∧ c.priority ≤ p then
              { c with priority := c.priority - 1 } else c)
        else if p < client.priority then
          db.map (fun c =>
            if c.status = client.status ∧ p ≤ c.priority ∧ c.priority < client.priority then
              { c with priority := c.priority + 1 } else c)
        else db).map (fun c => if c.id = client.id then { c with priority := p } else c)
      else db := rfl

lemma putEngine_some_def (db : List Client) (client : Client) (s : String) (pr : Option Int) :
    putEngine db client (some s) pr =
      if s ≠ "" ∧ s ≠ client.status then caseA db client s pr
      else sameLane db client pr := rfl

lemma putEngine_none_def (db : List Client) (client : Client) (pr : Option Int) :
    putEngine db client none pr = sameLane db client pr := rfl

/-! The engine respects permutation of the table rows. -/

lemma maxPriorityInLane_perm {db₁ db₂ : List Client} (h : db₁.Perm db₂) (s : String) :
    maxPriorityInLane db₁ s = maxPriorityInLane db₂ s :=
  listMax_perm ((h.filter _).map _)

lemma caseA_perm {db₁ db₂ : List Client} (h : db₁.Perm db₂) (client : Client) (s : String)
    (pr : Option Int) : (caseA db₁ client s pr).Perm (caseA db₂ client s pr) := by
  cases pr with
  | some p =>
    rw [caseA_some_def, caseA_some_def]
    exact ((h.map _).map _).map _
  | none =>
    rw [caseA_none_def, caseA_none_def]
    rw [maxPriorityInLane_perm (h.map _) s]
    exact (h.map _).map _

lemma sameLane_perm {db₁ db₂ : List Client} (h : db₁.Perm db₂) (client : Client)
    (pr : Option Int) : (sameLane db₁ client pr).Perm (sameLane db₂ client pr) := by
  cases pr with
  | none => exact h
  | some p =>
    rw [sameLane_some_def, sameLane_some_def]
    by_cases hp : p ≠ client.priority
    · rw [if_pos hp, if_pos hp]
      by_cases h1 : client.priority < p
      · rw [if_pos h1, if_pos h1]
        exact (h.map _).map _
      · rw [if_neg h1, if_neg h1]
        by_cases h2 : p < client.priority
        · rw [if_pos h2, if_pos h2]
          exact (h.map _).map _
        · rw [if_neg h2, if_neg h2]
          exact h.map _
    · rw [if_neg hp, if_neg hp]
      exact h

lemma putEngine_perm {db₁ db₂ : List Client} (h : db₁.Perm db₂) (client : Client)
    (st : Option String) (pr : Option Int) :
    (putEngine db₁ client st pr).Perm (putEngine db₂ client st pr) := by
  cases st with
  | none => exact sameLane_perm h client pr
  | some s =>
    rw [putEngine_some_def, putEngine_some_def]
    by_cases hc : s ≠ "" ∧ s ≠ client.status
    · rw [if_pos hc, if_pos hc]
      exact caseA_perm h client s pr
    · rw [if_neg hc, if_neg hc]
      exact sameLane_perm h client pr

lemma map_place_id_of_ne {l : List Client} {iid : Int} (h : ∀ c ∈ l, c.id ≠ iid)
    (s : String) (p : Int) :
    l.map (fun c => if c.id = iid then { c with status := s, priority := p } else c) = l :=
  map_id_of_ne h _

lemma map_pri_id_of_ne {l : List Client} {iid : Int} (h : ∀ c ∈ l, c.id ≠ iid) (p : Int) :
    l.map (fun c => if c.id = iid then { c with priority := p } else c) = l :=
  map_id_of_ne h _

/-- Lane-change updates preserve the contiguity invariant, provided a
supplied destination priority is between 1 and one past the destination
lane size.  Stated with the updated client at the head of the table. -/
lemma caseA_preserves_cons (client : Client) (rest : List Client) (s : String) (pr : Option Int)
    (hrid : ∀ c ∈ rest, c.id ≠ client.id)
    (hs : s ≠ client.status)
    (hinv : Invariant (client :: rest))
    (hpr : ∀ p, pr = some p → 1 ≤ p ∧ p ≤ (laneSize (client :: rest) s : Int) + 1) :
    Invariant (caseA (client :: rest) client s pr) := by
  have hN : client.priority ::ₘ lanePriorities rest client.status
      = range1 (laneSize (client :: rest) client.status) := by
    have h := hinv client.status
    unfold laneContiguous at h
    rwa [lanePriorities_cons, if_pos rfl] at h
  have hq1 : 1 ≤ client.priority ∧
      client.priority ≤ (laneSize (client :: rest) client.status : Int) :=
    mem_range1.mp (hN ▸ Multiset.mem_cons_self _ _)
  have hshift : (lanePriorities rest client.status).map
      (fun p => if client.priority < p then p - 1 else p)
      = range1 (laneSize (client :: rest) client.status - 1) := by
    have h1 : (client.priority ::ₘ lanePriorities rest client.status).map
        (fun p => if client.priority < p then p - 1 else p)
        = client.priority ::ₘ (lanePriorities rest client.status).map
            (fun p => if client.priority < p then p - 1 else p) := by
      rw [Multiset.map_cons, if_neg (lt_irrefl _)]
    rw [hN, map_closeGap _ _ hq1.1 hq1.2] at h1
    exact ((Multiset.cons_inj_right _).mp h1).symm
  have hM : lanePriorities rest s = range1 (laneSize (client :: rest) s) := by
    have h := hinv s
    unfold laneContiguous at h
    rwa [lanePriorities_cons, if_neg (fun hh => hs hh.symm)] at h
  have hrest : ∀ s', s' ≠ client.status →
      lanePriorities rest s' = range1 (laneSize (client :: rest) s') := by
    intro s' h1
    have h := hinv s'
    unfold laneContiguous at h
    rwa [lanePriorities_cons, if_neg (fun hh => h1 hh.symm)] at h
  cases pr with
  | some p =>
    obtain ⟨hp1, hp2⟩ := hpr p rfl
    rw [caseA_some_def]
    dsimp only [List.map_cons]
    rw [if_neg (show ¬ (client.status = client.status ∧ client.priority < client.priority)
      from fun hh => lt_irrefl _ hh.2)]
    rw [if_neg (show ¬ (client.status = s ∧ p ≤ client.priority)
      from fun hh => hs hh.1.symm)]
    rw [if_pos rfl]
    have htail : ∀ c ∈ (rest.map (fun c =>
        if c.status = client.status ∧ client.priority < c.priority then
          { c with priority := c.priority - 1 } else c)).map (fun c =>
        if c.status = s ∧ p ≤ c.priority then { c with priority := c.priority + 1 } else c),
        c.id ≠ client.id := by
      intro c hc
      obtain ⟨b, hb, rfl⟩ := List.mem_map.mp hc
      obtain ⟨a, ha, rfl⟩ := List.mem_map.mp hb
      rw [shift_id, shift_id]
      exact hrid a ha
    rw [map_place_id_of_ne htail]
    intro s'
    by_cases hs1 : s' = client.status
    · subst hs1
      apply laneContiguous_of_eq_range1
        (n := laneSize (client :: rest) client.status - 1)
      rw [lanePriorities_cons, if_neg (show ¬ ({ client with status := s, priority := p } :
          Client).status = client.status from fun hh => hs hh)]
      rw [lane_map_m2_ne _ _ (fun hh => hs hh.symm), lane_map_m1_eq, hshift]
    · by_cases hs2 : s' = s
      · subst hs2
        apply laneContiguous_of_eq_range1 (n := laneSize (client :: rest) s' + 1)
        rw [lanePriorities_cons, if_pos (show ({ client with status := s', priority := p } :
            Client).status = s' from rfl)]
        rw [lane_map_m2_eq, lane_map_m1_ne _ _ hs, hM]
        exact map_makeRoom _ p hp1 hp2
      · apply laneContiguous_of_eq_range1 (n := laneSize (client :: rest) s')
        rw [lanePriorities_cons, if_neg (show ¬ ({ client with status := s, priority := p } :
            Client).status = s' from fun hh => hs2 hh.symm)]
        rw [lane_map_m2_ne _ _ hs2, lane_map_m1_ne _ _ hs1, hrest s' hs1]
  | none =>
    rw [caseA_none_def]
    have hdb1 : (client :: rest).map (fun c =>
        if c.status = client.status ∧ client.priority < c.priority then
          { c with priority := c.priority - 1 } else c)
        = client :: rest.map (fun c =>
            if c.status = client.status ∧ client.priority < c.priority then
              { c with priority := c.priority - 1 } else c) := by
      dsimp only [List.map_cons]
      congr 1
      exact if_neg (fun hh => lt_irrefl _ hh.2)
    rw [hdb1]
    have hmax : maxPriorityInLane (client :: rest.map (fun c =>
        if c.status = client.status ∧ client.priority < c.priority then
          { c with priority := c.priority - 1 } else c)) s
        = if laneSize (client :: rest) s = 0 then none
          else some ((laneSize (client :: rest) s : Int)) := by
      unfold maxPriorityInLane
      apply listMax_of_range1
      show lanePriorities (client :: rest.map (fun c =>
        if c.status = client.status ∧ client.priority < c.priority then
          { c with priority := c.priority - 1 } else c)) s = _
      rw [lanePriorities_cons, if_neg (fun hh => hs hh.symm), lane_map_m1_ne _ _ hs, hM]
    have hnp : jsOrZero (maxPriorityInLane (client :: rest.map (fun c =>
        if c.status = client.status ∧ client.priority < c.priority then
          { c with priority := c.priority - 1 } else c)) s) + 1
        = (laneSize (client :: rest) s : Int) + 1 := by
      rw [hmax]
      rcases Nat.eq_zero_or_pos (laneSize (client :: rest) s) with h0 | h0
      · rw [if_pos h0, h0]
        rfl
      · rw [if_neg (by omega)]
        show (if (laneSize (client :: rest) s : Int) = 0 then 0
          else (laneSize (client :: rest) s : Int)) + 1 = _
        rw [if_neg (by omega)]
    rw [hnp]
    dsimp only [List.map_cons]
    rw [if_pos rfl]
    have htail : ∀ c ∈ rest.map (fun c =>
        if c.status = client.status ∧ client.priority < c.priority then
          { c with priority := c.priority - 1 } else c), c.id ≠ client.id := by
      intro c hc
      obtain ⟨a, ha, rfl⟩ := List.mem_map.mp hc
      rw [shift_id]
      exact hrid a ha
    rw [map_place_id_of_ne htail]
    intro s'
    by_cases hs1 : s' = client.status
    · subst hs1
      apply laneContiguous_of_eq_range1
        (n := laneSize (client :: rest) client.status - 1)
      rw [lanePriorities_cons, if_neg (show ¬ ({ client with
          status := s, priority := (laneSize (client :: rest) s : Int) + 1 } :
          Client).status = client.status from fun hh => hs hh)]
      rw [lane_map_m1_eq, hshift]
    · by_cases hs2 : s' = s
      · subst hs2
        apply laneContiguous_of_eq_range1 (n := laneSize (client :: rest) s' + 1)
        rw [lanePriorities_cons, if_pos (show ({ client with
            status := s', priority := (laneSize (client :: rest) s' : Int) + 1 } :
            Client).status = s' from rfl)]
        rw [lane_map_m1_ne _ _ hs, hM]
        rfl
      · apply laneContiguous_of_eq_range1 (n := laneSize (client :: rest) s')
        rw [lanePriorities_cons, if_neg (show ¬ ({ client with
            status := s, priority := (laneSize (client :: rest) s : Int) + 1 } :
            Client).status = s' from fun hh => hs2 hh.symm)]
        rw [lane_map_m1_ne _ _ hs1, hrest s' hs1]

/-- Same-lane re-rank updates preserve the contiguity invariant,
provided a supplied priority is between 1 and the lane size. -/
lemma sameLane_preserves_cons (client : Client) (rest : List Client) (pr : Option Int)
    (hrid : ∀ c ∈ rest, c.id ≠ client.id)
    (hinv : Invariant (client :: rest))
    (hpr : ∀ p, pr = some p → 1 ≤ p ∧ p ≤ (laneSize (client :: rest) client.status : Int)) :
    Invariant (sameLane (client :: rest) client pr) := by
  have hN : client.priority ::ₘ lanePriorities rest client.status
      = range1 (laneSize (client :: rest) client.status) := by
    have h := hinv client.status
    unfold laneContiguous at h
    rwa [lanePriorities_cons, if_pos rfl] at h
  have hq1 : 1 ≤ client.priority ∧
      client.priority ≤ (laneSize (client :: rest) client.status : Int) :=
    mem_range1.mp (hN ▸ Multiset.mem_cons_self _ _)
  have hqnotin : client.priority ∉ lanePriorities rest client.status := by
    have hnd := nodup_range1 (laneSize (client :: rest) client.status)
    rw [← hN] at hnd
    exact (Multiset.nodup_cons.mp hnd).1
  have hshift : (lanePriorities rest client.status).map
      (fun p => if client.priority < p then p - 1 else p)
      = range1 (laneSize (client :: rest) client.status - 1) := by
    have h1 : (client.priority ::ₘ lanePriorities rest client.status).map
        (fun p => if client.priority < p then p - 1 else p)
        = client.priority ::ₘ (lanePriorities rest client.status).map
            (fun p => if client.priority < p then p - 1 else p) := by
      rw [Multiset.map_cons, if_neg (lt_irrefl _)]
    rw [hN, map_closeGap _ _ hq1.1 hq1.2] at h1
    exact ((Multiset.cons_inj_right _).mp h1).symm
  have hrest : ∀ s', s' ≠ client.status →
      lanePriorities rest s' = range1 (laneSize (client :: rest) s') := by
    intro s' h1
    have h := hinv s'
    unfold laneContiguous at h
    rwa [lanePriorities_cons, if_neg (fun hh => h1 hh.symm)] at h
  cases pr with
  | none => exact hinv
  | some p =>
    rw [sameLane_some_def]
    by_cases hp : p = client.priority
    · rw [if_neg (fun hh => hh hp)]
      exact hinv
    · rw [if_pos hp]
      obtain ⟨hp1, hp2⟩ := hpr p rfl
      by_cases hlt : client.priority < p
      · rw [if_pos hlt]
        dsimp only [List.map_cons]
        rw [if_neg (show ¬ (client.status = client.status ∧
            client.priority < client.priority ∧ client.priority ≤ p)
          from fun hh => lt_irrefl _ hh.2.1)]
        rw [if_pos rfl]
        have htail : ∀ c ∈ rest.map (fun c =>
            if c.status = client.status ∧ client.priority < c.priority ∧ c.priority ≤ p then
              { c with priority := c.priority - 1 } else c), c.id ≠ client.id := by
          intro c hc
          obtain ⟨a, ha, rfl⟩ := List.mem_map.mp hc
          rw [shift_id]
          exact hrid a ha
        rw [map_pri_id_of_ne htail]
        intro s'
        by_cases hs1 : s' = client.status
        · subst hs1
          apply laneContiguous_of_eq_range1
            (n := laneSize (client :: rest) client.status)
          rw [lanePriorities_cons, if_pos (show ({ client with priority := p } :
              Client).status = client.status from rfl)]
          rw [lane_map_dec_eq]
          have hcomp : (lanePriorities rest client.status).map
              (fun pp => if client.priority < pp ∧ pp ≤ p then pp - 1 else pp)
              = ((lanePriorities rest client.status).map
                  (fun pp => if client.priority < pp then pp - 1 else pp)).map
                  (fun pp => if p ≤ pp then pp + 1 else pp) := by
            rw [Multiset.map_map]
            refine (Multiset.map_congr rfl fun x _ => ?_).symm
            simp only [Function.comp_apply]
            split_ifs <;> omega
          rw [hcomp, hshift]
          have hmk := map_makeRoom (laneSize (client :: rest) client.status - 1) p hp1
            (by omega)
          rwa [show laneSize (client :: rest) client.status - 1 + 1
            = laneSize (client :: rest) client.status from by omega] at hmk
        · apply laneContiguous_of_eq_range1 (n := laneSize (client :: rest) s')
          rw [lanePriorities_cons, if_neg (show ¬ ({ client with priority := p } :
              Client).status = s' from fun hh => hs1 hh.symm)]
          rw [lane_map_dec_ne _ _ _ hs1, hrest s' hs1]
      · have hgt : p < client.priority := by omega
        rw [if_neg hlt, if_pos hgt]
        dsimp only [List.map_cons]
        rw [if_neg (show ¬ (client.status = client.status ∧
            p ≤ client.priority ∧ client.priority < client.priority)
          from fun hh => lt_irrefl _ hh.2.2)]
        rw [if_pos rfl]
        have htail : ∀ c ∈ rest.map (fun c =>
            if c.status = client.status ∧ p ≤ c.priority ∧ c.priority < client.priority then
              { c with priority := c.priority + 1 } else c), c.id ≠ client.id := by
          intro c hc
          obtain ⟨a, ha, rfl⟩ := List.mem_map.mp hc
          rw [shift_id]
          exact hrid a ha
        rw [map_pri_id_of_ne htail]
        intro s'
        by_cases hs1 : s' = client.status
        · subst hs1
          apply laneContiguous_of_eq_range1
            (n := laneSize (client :: rest) client.status)
          rw [lanePriorities_cons, if_pos (show ({ client with priority := p } :
              Client).status = client.status from rfl)]
          rw [lane_map_inc_eq]
          have hcomp : (lanePriorities rest client.status).map
              (fun pp => if p ≤ pp ∧ pp < client.priority then pp + 1 else pp)
              = ((lanePriorities rest client.status).map
                  (fun pp => if client.priority < pp then pp - 1 else pp)).map
                  (fun pp => if p ≤ pp then pp + 1 else pp) := by
            rw [Multiset.map_map]
            refine (Multiset.map_congr rfl fun x hx => ?_).symm
            have hxq : x ≠ client.priority := fun hh => hqnotin (hh ▸ hx)
            simp only [Function.comp_apply]
            split_ifs <;> omega
          rw [hcomp, hshift]
          have hmk := map_makeRoom (laneSize (client :: rest) client.status - 1) p hp1
            (by omega)
          rwa [show laneSize (client :: rest) client.status - 1 + 1
            = laneSize (client :: rest) client.status from by omega] at hmk
        · apply laneContiguous_of_eq_range1 (n := laneSize (client :: rest) s')
          rw [lanePriorities_cons, if_neg (show ¬ ({ client with priority := p } :
              Client).status = s' from fun hh => hs1 hh.symm)]
          rw [lane_map_inc_ne _ _ _ hs1, hrest s' hs1]

/-- The full engine preserves the invariant when the updated client is
at the head of the table. -/
lemma putEngine_preserves_cons (client : Client) (rest : List Client)
    (st : Option String) (pr : Option Int)
    (hrid : ∀ c ∈ rest, c.id ≠ client.id)
    (hinv : Invariant (client :: rest))
    (hpr : PriorityOk (client :: rest) client st pr) :
    Invariant (putEngine (client :: rest) client st pr) := by
  cases st with
  | none =>
    rw [putEngine_none_def]
    apply sameLane_preserves_cons client rest pr hrid hinv
    intro p hp
    have h := hpr p hp
    dsimp only [destLane] at h
    rwa [if_pos rfl, add_zero] at h
  | some s =>
    rw [putEngine_some_def]
    by_cases hcond : s ≠ "" ∧ s ≠ client.status
    · rw [if_pos hcond]
      apply caseA_preserves_cons client rest s pr hrid hcond.2 hinv
      intro p hp
      have h := hpr p hp
      dsimp only [destLane] at h
      rw [if_pos hcond, if_neg hcond.2] at h
      exact h
    · rw [if_neg hcond]
      apply sameLane_preserves_cons client rest pr hrid hinv
      intro p hp
      have h := hpr p hp
      dsimp only [destLane] at h
      rwa [if_neg hcond, if_pos rfl, add_zero] at h

/-- The full engine preserves the contiguity invariant on any table
with unique ids containing the updated client, provided a supplied
priority is in range for its destination lane. -/
lemma putEngine_preserves {db : List Client} {client : Client} (st : Option String)
    (pr : Option Int)
    (hids : (db.map (fun c => c.id)).Nodup)
    (hmem : client ∈ db)
    (hinv : Invariant db)
    (hpr : PriorityOk db client st pr) :
    Invariant (putEngine db client st pr) := by
  have hperm : db.Perm (client :: db.erase client) := List.perm_cons_erase hmem
  have hids' : ((client :: db.erase client).map (fun c => c.id)).Nodup :=
    ((hperm.map _).nodup_iff).mp hids
  have hinv' : Invariant (client :: db.erase client) := (invariant_perm hperm).mp hinv
  have hrid := mem_cons_ne_id hids'
  have hpe := putEngine_perm hperm client st pr
  rw [invariant_perm hpe]
  apply putEngine_preserves_cons client (db.erase client) st pr hrid hinv'
  intro p hp
  obtain ⟨h1, h2⟩ := hpr p hp
  refine ⟨h1, ?_⟩
  rwa [laneSize_perm hperm] at h2

/-! Helpers about lookup by id. -/

lemma id_unique {db : List Client} (hids : (db.map (fun c => c.id)).Nodup)
    {a b : Client} (ha : a ∈ db) (hb : b ∈ db) (h : a.id = b.id) : a = b :=
  List.inj_on_of_nodup_map hids ha hb h

/-- In a contiguous lane two distinct clients never share a priority. -/
lemma lane_priority_unique {db : List Client} {s : String}
    (h : laneContiguous db s) {a b : Client}
    (ha : a ∈ db) (hb : b ∈ db) (has : a.status = s) (hbs : b.status = s)
    (hpr : a.priority = b.priority) : a = b := by
  have hnd : ((db.filter (fun c => c.status == s)).map (fun c => c.priority)).Nodup := by
    have hh := nodup_range1 (laneSize db s)
    unfold laneContiguous at h
    rw [← h] at hh
    exact Multiset.coe_nodup.mp hh
  exact List.inj_on_of_nodup_map hnd
    (List.mem_filter.mpr ⟨ha, by simp [has]⟩)
    (List.mem_filter.mpr ⟨hb, by simp [hbs]⟩) hpr

lemma find?_id_self {db : List Client} (hids : (db.map (fun c => c.id)).Nodup)
    {client : Client} (hmem : client ∈ db) :
    db.find? (fun c => c.id == client.id) = some client := by
  induction db with
  | nil => cases hmem
  | cons a l ih =>
    rw [List.find?_cons]
    by_cases h : a.id = client.id
    · have ha : a = client := id_unique hids (List.mem_cons_self a l) hmem h
      subst ha
      simp
    · have hb : (a.id == client.id) = false := by simp [h]
      rw [hb]
      rcases List.mem_cons.mp hmem with rfl | hmem'
      · exact absurd rfl h
      · have hids' : (l.map (fun c => c.id)).Nodup := by
          rw [List.map_cons, List.nodup_cons] at hids
          exact hids.2
        exact ih hids' hmem'

/-- Lookup by id commutes with a row map that does not change ids. -/
lemma find?_map_id {l : List Client} {iid : Int} {F : Client → Client}
    (hF : ∀ c, (F c).id = c.id) :
    (l.map F).find? (fun c => c.id == iid) = (l.find? (fun c => c.id == iid)).map F := by
  induction l with
  | nil => rfl
  | cons a l ih =>
    rw [List.map_cons, List.find?_cons, List.find?_cons, hF a]
    cases hb : (a.id == iid)
    · exact ih
    · rfl

/-! Concrete stores used in witnesses and counterexamples. -/

/-- A contiguous three-client backlog store. -/
def dbCex : List Client :=
  [⟨1, "c1", "backlog", 1⟩, ⟨2, "c2", "backlog", 2⟩, ⟨3, "c3", "backlog", 3⟩]

/-- The store `dbCex` after `PUT id 1 {priority: 50}`. -/
def dbCexAfter : List Client :=
  [⟨1, "c1", "backlog", 50⟩, ⟨2, "c2", "backlog", 1⟩, ⟨3, "c3", "backlog", 2⟩]

lemma invariant_dbCex : Invariant dbCex := by
  intro s
  by_cases h : s = "backlog"
  · subst h
    show lanePriorities dbCex "backlog" = range1 (laneSize dbCex "backlog")
    decide
  · apply laneContiguous_of_not_mem
    intro c hc hcs
    apply h
    have hb : c.status = "backlog" := by
      simp only [dbCex, List.mem_cons, List.not_mem_nil, or_false] at hc
      rcases hc with rfl | rfl | rfl <;> rfl
    rw [← hcs, hb]

/-- C1 counterexample: starting from a store where every lane is
exactly `{1..N}`, the PUT update `{priority: 50}` on client 1 succeeds
with HTTP 200, yet afterwards the backlog lane priorities are
`{50, 1, 2}`, not `{1, 2, 3}` — duplicate-free but with a gap. -/
theorem C1_cex :
    Invariant dbCex ∧
    putRoute dbCex (some 1) none (some 50) = (.ok 200 dbCexAfter, dbCexAfter) ∧
    ¬ laneContiguous dbCexAfter "backlog" :=
  ⟨invariant_dbCex, by decide, by decide⟩

/-- C1 (amended): after any PUT update on a store with unique ids where
every lane is exactly `{1..N}`, every lane is again exactly `{1..N}`,
provided a supplied priority is at least 1 and at most the destination
lane size (one more when the update is a lane change). -/
theorem C1_put_preserves_invariant (db : List Client) (i : Int) (st : Option String)
    (pr : Option Int)
    (hids : (db.map (fun c => c.id)).Nodup)
    (hinv : Invariant db)
    (hpr : ∀ client, db.find? (fun c => c.id == i) = some client →
      PriorityOk db client st pr) :
    Invariant (putRoute db (some i) st pr).2 := by
  rcases hfind : db.find? (fun c => c.id == i) with _ | client
  · have he : (putRoute db (some i) st pr).2 = db := by
      unfold putRoute validateId
      dsimp only
      rw [hfind]
    rw [he]
    exact hinv
  · have he : (putRoute db (some i) st pr).2 = putEngine db client st pr := by
      unfold putRoute validateId
      dsimp only
      rw [hfind]
    rw [he]
    exact putEngine_preserves st pr hids (List.mem_of_find?_eq_some hfind) hinv
      (hpr client hfind)

/-- C1 witness: a concrete in-range lane-change update through the
route keeps every lane contiguous. -/
theorem C1_put_preserves_invariant_witness :
    Invariant (putRoute dbCex (some 1) (some "complete") (some 1)).2 := by
  apply C1_put_preserves_invariant
  · decide
  · exact invariant_dbCex
  · intro client hfind
    have heq : dbCex.find? (fun c => c.id == (1 : Int))
        = some (⟨1, "c1", "backlog", 1⟩ : Client) := by decide
    rw [heq] at hfind
    injection hfind with hcl
    subst hcl
    intro p hp
    injection hp with hpv
    subst hpv
    decide

/-! Fused single-map forms of the engine branches. -/

/-- The three UPDATE statements of the lane-change branch with explicit
priority amount to one row transformation. -/
lemma caseA_some_eq (db : List Client) (client : Client) (s : String) (p : Int)
    (hs : s ≠ client.status) :
    caseA db client s (some p) = db.map (fun c =>
      if c.id = client.id then { c with status := s, priority := p }
      else if c.status = client.status ∧ client.priority < c.priority then
        { c with priority := c.priority - 1 }
      else if c.status = s ∧ p ≤ c.priority then { c with priority := c.priority + 1 }
      else c) := by
  rw [caseA_some_def, List.map_map, List.map_map]
  apply List.map_congr_left
  intro c _
  simp only [Function.comp_apply]
  by_cases h1 : c.status = client.status ∧ client.priority < c.priority
  · rw [if_pos h1]
    rw [if_neg (show ¬ (c.status = s ∧ p ≤ c.priority - 1) from
      fun hh => hs (hh.1 ▸ h1.1))]
    by_cases hid : c.id = client.id
    · rw [if_pos hid, if_pos hid]
    · rw [if_neg hid, if_neg hid, if_pos h1]
  · rw [if_neg h1]
    by_cases h2 : c.status = s ∧ p ≤ c.priority
    · rw [if_pos h2]
      by_cases hid : c.id = client.id
      · rw [if_pos hid, if_pos hid]
      · rw [if_neg hid, if_neg hid, if_neg h1]
    · rw [if_neg h2]
      by_cases hid : c.id = client.id
      · rw [if_pos hid, if_pos hid]
      · rw [if_neg hid, if_neg hid, if_neg h1]

/-- The same-lane branch with a differing priority amounts to one row
transformation. -/
lemma sameLane_some_eq (db : List Client) (client : Client) (p : Int)
    (hp : p ≠ client.priority) :
    sameLane db client (some p) = db.map (fun c =>
      if c.id = client.id then { c with priority := p }
      else if c.status = client.status ∧ client.priority < c.priority ∧ c.priority ≤ p then
        { c with priority := c.priority - 1 }
      else if c.status = client.status ∧ p ≤ c.priority ∧ c.priority < client.priority then
        { c with priority := c.priority + 1 }
      else c) := by
  rw [sameLane_some_def, if_pos hp]
  by_cases hlt : client.priority < p
  · rw [if_pos hlt, List.map_map]
    apply List.map_congr_left
    intro c _
    simp only [Function.comp_apply]
    by_cases hdec : c.status = client.status ∧ client.priority < c.priority ∧ c.priority ≤ p
    · rw [if_pos hdec]
      by_cases hid : c.id = client.id
      · rw [if_pos hid, if_pos hid]
      · rw [if_neg hid, if_neg hid, if_pos hdec]
    · rw [if_neg hdec]
      by_cases hid : c.id = client.id
      · rw [if_pos hid, if_pos hid]
      · rw [if_neg hid, if_neg hid, if_neg hdec,
          if_neg (show ¬ (c.status = client.status ∧ p ≤ c.priority ∧
            c.priority < client.priority) from fun hh => absurd hh.2 (by omega))]
  · have hgt : p < client.priority := by omega
    rw [if_neg hlt, if_pos hgt, List.map_map]
    apply List.map_congr_left
    intro c _
    simp only [Function.comp_apply]
    by_cases hinc : c.status = client.status ∧ p ≤ c.priority ∧ c.priority < client.priority
    · rw [if_pos hinc]
      by_cases hid : c.id = client.id
      · rw [if_pos hid, if_pos hid]
      · rw [if_neg hid, if_neg hid,
          if_neg (show ¬ (c.status = client.status ∧ client.priority < c.priority ∧
            c.priority ≤ p) from fun hh => absurd hh.2 (by omega))]
    · rw [if_neg hinc]
      by_cases hid : c.id = client.id
      · rw [if_pos hid, if_pos hid]
      · rw [if_neg hid, if_neg hid,
          if_neg (show ¬ (c.status = client.status ∧ client.priority < c.priority ∧
            c.priority ≤ p) from fun hh => absurd hh.2 (by omega))]

/-- The old-lane decrement UPDATE does not change the MAX of another
lane. -/
lemma maxPriorityInLane_map_m1 (db : List Client) (client : Client) (s : String)
    (hs : s ≠ client.status) :
    maxPriorityInLane (db.map (fun c =>
      if c.status = client.status ∧ client.priority < c.priority then
        { c with priority := c.priority - 1 } else c)) s = maxPriorityInLane db s := by
  unfold maxPriorityInLane
  congr 1
  rw [List.filter_map]
  rw [List.filter_congr (fun c _ => by
    simp only [Function.comp_apply]
    rw [shift_status])]
  rw [List.map_map]
  apply List.map_congr_left
  intro c hc
  have hcs : c.status = s := by
    have hb := (List.mem_filter.mp hc).2
    simpa using hb
  simp only [Function.comp_apply]
  rw [if_neg (fun hh => hs (hcs ▸ hh.1))]

/-- The JS default `(row && row.maxPriority ? row.maxPriority : 0)` is
just the max with default 0. -/
lemma jsOrZero_eq_getD (o : Option Int) : jsOrZero o = o.getD 0 := by
  cases o with
  | none => rfl
  | some v =>
    show (if v = 0 then 0 else v) = v
    by_cases h : v = 0
    · rw [if_pos h, h]
    · rw [if_neg h]

/-- The lane-change branch with no priority amounts to one row
transformation, appending past the pre-state MAX of the destination. -/
lemma caseA_none_eq (db : List Client) (client : Client) (s : String)
    (hs : s ≠ client.status) :
    caseA db client s none = db.map (fun c =>
      if c.id = client.id then
        { c with status := s, priority := jsOrZero (maxPriorityInLane db s) + 1 }
      else if c.status = client.status ∧ client.priority < c.priority then
        { c with priority := c.priority - 1 }
      else c) := by
  rw [caseA_none_def, maxPriorityInLane_map_m1 db client s hs, List.map_map]
  apply List.map_congr_left
  intro c _
  simp only [Function.comp_apply]
  by_cases h1 : c.status = client.status ∧ client.priority < c.priority
  · rw [if_pos h1]
  · rw [if_neg h1]

/-- C2: a lane-change update with explicit priority sets the moved
client to exactly the requested priority, after incrementing every
destination-lane client at or above it and decrementing every old-lane
client above the moved one; ids, names and untouched lanes are
unchanged by the same equation. -/
theorem C2_lane_change_explicit (db : List Client) (client : Client) (s : String) (p : Int)
    (hs1 : s ≠ "") (hs2 : s ≠ client.status) :
    putEngine db client (some s) (some p) = db.map (fun c =>
      if c.id = client.id then { c with status := s, priority := p }
      else if c.status = client.status ∧ client.priority < c.priority then
        { c with priority := c.priority - 1 }
      else if c.status = s ∧ p ≤ c.priority then { c with priority := c.priority + 1 }
      else c) := by
  rw [putEngine_some_def, if_pos ⟨hs1, hs2⟩]
  exact caseA_some_eq db client s p hs2

/-- C2 witness: moving client 1 from a three-card backlog into the
empty in-progress lane at priority 1. -/
theorem C2_lane_change_explicit_witness :
    putEngine dbCex ⟨1, "c1", "backlog", 1⟩ (some "in-progress") (some 1) =
      [⟨1, "c1", "in-progress", 1⟩, ⟨2, "c2", "backlog", 1⟩, ⟨3, "c3", "backlog", 2⟩] := by
  rw [C2_lane_change_explicit dbCex ⟨1, "c1", "backlog", 1⟩ "in-progress" 1
    (by decide) (by decide)]
  decide

/-- C3: a same-lane re-rank (status absent or equal to the current
lane, priority supplied and different) decrements the block strictly
above the old priority up to the new one when moving down, increments
the block from the new priority up to below the old one when moving up,
and sets the moved client to the new priority. -/
theorem C3_same_lane_rerank (db : List Client) (client : Client) (st : Option String)
    (p : Int)
    (hst : st = none ∨ st = some client.status)
    (hp : p ≠ client.priority) :
    putEngine db client st (some p) = db.map (fun c =>
      if c.id = client.id then { c with priority := p }
      else if c.status = client.status ∧ client.priority < c.priority ∧ c.priority ≤ p then
        { c with priority := c.priority - 1 }
      else if c.status = client.status ∧ p ≤ c.priority ∧ c.priority < client.priority then
        { c with priority := c.priority + 1 }
      else c) := by
  have hsame : putEngine db client st (some p) = sameLane db client (some p) := by
    rcases hst with rfl | rfl
    · rfl
    · rw [putEngine_some_def, if_neg (fun hh => hh.2 rfl)]
  rw [hsame]
  exact sameLane_some_eq db client p hp

/-- C3 witness, spec Scenario 2: within backlog `P1=1, P2=2, P3=3`,
setting the priority of P1 to 3 yields `P2=1, P3=2, P1=3`. -/
theorem C3_same_lane_rerank_witness :
    putEngine dbCex ⟨1, "c1", "backlog", 1⟩ none (some 3) =
      [⟨1, "c1", "backlog", 3⟩, ⟨2, "c2", "backlog", 1⟩, ⟨3, "c3", "backlog", 2⟩] := by
  rw [C3_same_lane_rerank dbCex ⟨1, "c1", "backlog", 1⟩ none 3 (Or.inl rfl) (by decide)]
  decide

/-- The spec Scenario 1 store: three backlog cards and one in-progress
card. -/
def dbS1 : List Client :=
  [⟨1, "P1", "backlog", 1⟩, ⟨2, "P2", "backlog", 2⟩, ⟨3, "P3", "backlog", 3⟩,
   ⟨4, "Q1", "in-progress", 1⟩]

/-- C4: a lane-change update with no priority gives the moved client
priority `maxPriorityInLane(newStatus) + 1` (with max 0 for an empty
lane) and decrements every old-lane client above the moved one. -/
theorem C4_lane_change_append (db : List Client) (client : Client) (s : String)
    (hs1 : s ≠ "") (hs2 : s ≠ client.status) :
    putEngine db client (some s) none = db.map (fun c =>
      if c.id = client.id then
        { c with status := s, priority := (maxPriorityInLane db s).getD 0 + 1 }
      else if c.status = client.status ∧ client.priority < c.priority then
        { c with priority := c.priority - 1 }
      else c) := by
  rw [putEngine_some_def, if_pos ⟨hs1, hs2⟩, caseA_none_eq db client s hs2,
    jsOrZero_eq_getD]

/-- C4 witness, spec Scenario 1: moving P1 to in-progress with no
priority appends it at `max + 1 = 2` and the backlog becomes
`P2=1, P3=2`. -/
theorem C4_lane_change_append_witness :
    putEngine dbS1 ⟨1, "P1", "backlog", 1⟩ (some "in-progress") none =
      [⟨1, "P1", "in-progress", 2⟩, ⟨2, "P2", "backlog", 1⟩, ⟨3, "P3", "backlog", 2⟩,
       ⟨4, "Q1", "in-progress", 1⟩] := by
  rw [C4_lane_change_append dbS1 ⟨1, "P1", "backlog", 1⟩ "in-progress"
    (by decide) (by decide)]
  decide

/-! Helpers for the idempotence claim. -/

lemma place_id (P : Prop) [Decidable P] (c : Client) (s : String) (x : Int) :
    (if P then { c with status := s, priority := x } else c).id = c.id := by
  by_cases h : P <;> simp [h]

lemma FA_id (client : Client) (s : String) (p : Int) (c : Client) :
    ((if c.id = client.id then { c with status := s, priority := p }
      else if c.status = client.status ∧ client.priority < c.priority then
        { c with priority := c.priority - 1 }
      else if c.status = s ∧ p ≤ c.priority then { c with priority := c.priority + 1 }
      else c) : Client).id = c.id := by
  by_cases hid : c.id = client.id
  · rw [if_pos hid]
  · rw [if_neg hid]
    by_cases h1 : c.status = client.status ∧ client.priority < c.priority
    · rw [if_pos h1]
    · rw [if_neg h1]
      by_cases h2 : c.status = s ∧ p ≤ c.priority
      · rw [if_pos h2]
      · rw [if_neg h2]

lemma FAN_id (client : Client) (s : String) (v : Int) (c : Client) :
    ((if c.id = client.id then { c with status := s, priority := v }
      else if c.status = client.status ∧ client.priority < c.priority then
        { c with priority := c.priority - 1 }
      else c) : Client).id = c.id := by
  by_cases hid : c.id = client.id
  · rw [if_pos hid]
  · rw [if_neg hid]
    by_cases h1 : c.status = client.status ∧ client.priority < c.priority
    · rw [if_pos h1]
    · rw [if_neg h1]

lemma FB_id (client : Client) (p : Int) (c : Client) :
    ((if c.id = client.id then { c with priority := p }
      else if c.status = client.status ∧ client.priority < c.priority ∧ c.priority ≤ p then
        { c with priority := c.priority - 1 }
      else if c.status = client.status ∧ p ≤ c.priority ∧ c.priority < client.priority then
        { c with priority := c.priority + 1 }
      else c) : Client).id = c.id := by
  by_cases hid : c.id = client.id
  · rw [if_pos hid]
  · rw [if_neg hid]
    by_cases h1 : c.status = client.status ∧ client.priority < c.priority ∧ c.priority ≤ p
    · rw [if_pos h1]
    · rw [if_neg h1]
      by_cases h2 : c.status = client.status ∧ p ≤ c.priority ∧ c.priority < client.priority
      · rw [if_pos h2]
      · rw [if_neg h2]

/-- The PUT route on a resolvable id returns 200 with the engine
result as both body and new store state. -/
lemma putRoute_of_find (db : List Client) (i : Int) (client : Client)
    (st : Option String) (pr : Option Int)
    (hfind : db.find? (fun c => c.id == i) = some client) :
    putRoute db (some i) st pr =
      (.ok 200 (putEngine db client st pr), putEngine db client st pr) := by
  unfold putRoute validateId
  dsimp only
  rw [hfind]

/-- Re-running a same-lane (or no-op) update is a no-op. -/
lemma putRoute_second_noop_sameLane (db : List Client) (i : Int) (client : Client)
    (st : Option String) (pr : Option Int)
    (hfind : db.find? (fun c => c.id == i) = some client)
    (hst : st = none ∨ ∃ s, st = some s ∧ ¬(s ≠ "" ∧ s ≠ client.status))
    (heq : putEngine db client st pr = sameLane db client pr) :
    putRoute (putEngine db client st pr) (some i) st pr =
      (.ok 200 (putEngine db client st pr), putEngine db client st pr) := by
  rw [heq]
  cases pr with
  | none =>
    rw [sameLane_none_def]
    rw [putRoute_of_find db i client st none hfind]
    have hsecond : putEngine db client st none = db := by
      rcases hst with rfl | ⟨s, rfl, hs⟩
      · rfl
      · rw [putEngine_some_def, if_neg hs, sameLane_none_def]
    rw [hsecond]
  | some p =>
    by_cases hp : p = client.priority
    · have hnoop : sameLane db client (some p) = db := by
        rw [sameLane_some_def, if_neg (fun hh => hh hp)]
      rw [hnoop, putRoute_of_find db i client st (some p) hfind]
      have hsecond : putEngine db client st (some p) = db := by
        rcases hst with rfl | ⟨s, rfl, hs⟩
        · rw [putEngine_none_def, hnoop]
        · rw [putEngine_some_def, if_neg hs, hnoop]
      rw [hsecond]
    · rw [sameLane_some_eq db client p hp]
      have hfE : (db.map (fun c =>
          if c.id = client.id then { c with priority := p }
          else if c.status = client.status ∧ client.priority < c.priority ∧ c.priority ≤ p
            then { c with priority := c.priority - 1 }
          else if c.status = client.status ∧ p ≤ c.priority ∧ c.priority < client.priority
            then { c with priority := c.priority + 1 }
          else c)).find? (fun c => c.id == i) = some { client with priority := p } := by
        rw [find?_map_id (fun c => FB_id client p c), hfind]
        show some (if client.id = client.id then { client with priority := p }
          else if client.status = client.status ∧ client.priority < client.priority ∧
            client.priority ≤ p then { client with priority := client.priority - 1 }
          else if client.status = client.status ∧ p ≤ client.priority ∧
            client.priority < client.priority then
            { client with priority := client.priority + 1 }
          else client) = some { client with priority := p }
        rw [if_pos rfl]
      rw [putRoute_of_find _ i { client with priority := p } st (some p) hfE]
      have hsecond : putEngine (db.map (fun c =>
          if c.id = client.id then { c with priority := p }
          else if c.status = client.status ∧ client.priority < c.priority ∧ c.priority ≤ p
            then { c with priority := c.priority - 1 }
          else if c.status = client.status ∧ p ≤ c.priority ∧ c.priority < client.priority
            then { c with priority := c.priority + 1 }
          else c)) { client with priority := p } st (some p)
          = db.map (fun c =>
          if c.id = client.id then { c with priority := p }
          else if c.status = client.status ∧ client.priority < c.priority ∧ c.priority ≤ p
            then { c with priority := c.priority - 1 }
          else if c.status = client.status ∧ p ≤ c.priority ∧ c.priority < client.priority
            then { c with priority := c.priority + 1 }
          else c) := by
        have hsl : ∀ l : List Client,
            sameLane l { client with priority := p } (some p) = l := by
          intro l
          rw [sameLane_some_def, if_neg (fun hh => hh rfl)]
        rcases hst with rfl | ⟨s, rfl, hs⟩
        · rw [putEngine_none_def]
          exact hsl _
        · rw [putEngine_some_def, if_neg (fun hh => hs hh)]
          exact hsl _
      rw [hsecond]

/-- After any PUT has been applied, re-running the same PUT is a no-op
on the resulting store. -/
lemma putRoute_second_noop (db : List Client) (i : Int) (client : Client)
    (st : Option String) (pr : Option Int)
    (hfind : db.find? (fun c => c.id == i) = some client) :
    putRoute (putEngine db client st pr) (some i) st pr =
      (.ok 200 (putEngine db client st pr), putEngine db client st pr) := by
  cases st with
  | none => exact putRoute_second_noop_sameLane db i client none pr hfind (Or.inl rfl) rfl
  | some s =>
    by_cases hc : s ≠ "" ∧ s ≠ client.status
    · have hengine : putEngine db client (some s) pr = caseA db client s pr := by
        rw [putEngine_some_def, if_pos hc]
      cases pr with
      | some p =>
        rw [hengine, caseA_some_eq db client s p hc.2]
        have hfE : (db.map (fun c =>
            if c.id = client.id then { c with status := s, priority := p }
            else if c.status = client.status ∧ client.priority < c.priority then
              { c with priority := c.priority - 1 }
            else if c.status = s ∧ p ≤ c.priority then { c with priority := c.priority + 1 }
            else c)).find? (fun c => c.id == i)
            = some { client with status := s, priority := p } := by
          rw [find?_map_id (fun c => FA_id client s p c), hfind]
          show some (if client.id = client.id then { client with status := s, priority := p }
            else if client.status = client.status ∧ client.priority < client.priority then
              { client with priority := client.priority - 1 }
            else if client.status = s ∧ p ≤ client.priority then
              { client with priority := client.priority + 1 }
            else client) = some { client with status := s, priority := p }
          rw [if_pos rfl]
        rw [putRoute_of_find _ i { client with status := s, priority := p } (some s)
          (some p) hfE]
        have hsecond : putEngine (db.map (fun c =>
            if c.id = client.id then { c with status := s, priority := p }
            else if c.status = client.status ∧ client.priority < c.priority then
              { c with priority := c.priority - 1 }
            else if c.status = s ∧ p ≤ c.priority then { c with priority := c.priority + 1 }
            else c)) { client with status := s, priority := p } (some s) (some p)
            = db.map (fun c =>
            if c.id = client.id then { c with status := s, priority := p }
            else if c.status = client.status ∧ client.priority < c.priority then
              { c with priority := c.priority - 1 }
            else if c.status = s ∧ p ≤ c.priority then { c with priority := c.priority + 1 }
            else c) := by
          rw [putEngine_some_def, if_neg (fun hh => hh.2 rfl), sameLane_some_def,
            if_neg (fun hh => hh rfl)]
        rw [hsecond]
      | none =>
        rw [hengine, caseA_none_eq db client s hc.2]
        have hfE : (db.map (fun c =>
            if c.id = client.id then
              { c with status := s, priority := jsOrZero (maxPriorityInLane db s) + 1 }
            else if c.status = client.status ∧ client.priority < c.priority then
              { c with priority := c.priority - 1 }
            else c)).find? (fun c => c.id == i)
            = some { client with
                status := s, priority := jsOrZero (maxPriorityInLane db s) + 1 } := by
          rw [find?_map_id (fun c => FAN_id client s (jsOrZero (maxPriorityInLane db s) + 1) c),
            hfind]
          show some (if client.id = client.id then
              { client with status := s, priority := jsOrZero (maxPriorityInLane db s) + 1 }
            else if client.status = client.status ∧ client.priority < client.priority then
              { client with priority := client.priority - 1 }
            else client)
            = some { client with
                status := s, priority := jsOrZero (maxPriorityInLane db s) + 1 }
          rw [if_pos rfl]
        rw [putRoute_of_find _ i
          { client with status := s, priority := jsOrZero (maxPriorityInLane db s) + 1 }
          (some s) none hfE]
        have hsecond : putEngine (db.map (fun c =>
            if c.id = client.id then
              { c with status := s, priority := jsOrZero (maxPriorityInLane db s) + 1 }
            else if c.status = client.status ∧ client.priority < c.priority then
              { c with priority := c.priority - 1 }
            else c))
            { client with status := s, priority := jsOrZero (maxPriorityInLane db s) + 1 }
            (some s) none
            = db.map (fun c =>
            if c.id = client.id then
              { c with status := s, priority := jsOrZero (maxPriorityInLane db s) + 1 }
            else if c.status = client.status ∧ client.priority < c.priority then
              { c with priority := c.priority - 1 }
            else c) := by
          rw [putEngine_some_def, if_neg (fun hh => hh.2 rfl), sameLane_none_def]
        rw [hsecond]
    · exact putRoute_second_noop_sameLane db i client (some s) pr hfind
        (Or.inr ⟨s, rfl, hc⟩) (by rw [putEngine_some_def, if_neg hc])

/-- C6: when the requested status is absent or equal to the current one
and the requested priority is absent or equal to the current one, the
PUT route performs no mutation and returns the pre-request list; and
for any PUT, applying the same update a second time returns exactly
the state after the first application. -/
theorem C6_noop_idempotent (db : List Client) (i : Int) (st : Option String)
    (pr : Option Int) :
    (∀ client, db.find? (fun c => c.id == i) = some client →
      (st = none ∨ st = some client.status) →
      (pr = none ∨ pr = some client.priority) →
      putRoute db (some i) st pr = (.ok 200 db, db)) ∧
    (∀ db1, putRoute db (some i) st pr = (.ok 200 db1, db1) →
      putRoute db1 (some i) st pr = (.ok 200 db1, db1)) := by
  constructor
  · intro client hfind hst hpr
    have hsl : sameLane db client pr = db := by
      rcases hpr with rfl | rfl
      · rfl
      · rw [sameLane_some_def, if_neg (fun hh => hh rfl)]
    have heng : putEngine db client st pr = db := by
      rcases hst with rfl | rfl
      · rw [putEngine_none_def, hsl]
      · rw [putEngine_some_def, if_neg (fun hh => hh.2 rfl), hsl]
    rw [putRoute_of_find db i client st pr hfind, heng]
  · intro db1 h
    rcases hfind : db.find? (fun c => c.id == i) with _ | client
    · exfalso
      unfold putRoute validateId at h
      dsimp only at h
      rw [hfind] at h
      simp at h
    · rw [putRoute_of_find db i client st pr hfind] at h
      have hdb1 : db1 = putEngine db client st pr := by
        have h2 := congrArg Prod.snd h
        dsimp only at h2
        exact h2.symm
      subst hdb1
      exact putRoute_second_noop db i client st pr hfind

/-- C6 witness: a PUT repeating the current placement of client 1
returns the store unchanged. -/
theorem C6_noop_idempotent_witness :
    putRoute dbCex (some 1) (some "backlog") (some 1) = (.ok 200 dbCex, dbCex) :=
  (C6_noop_idempotent dbCex 1 (some "backlog") (some 1)).1 ⟨1, "c1", "backlog", 1⟩
    (by decide) (Or.inr rfl) (Or.inr rfl)

/-! The error-handling claims. -/

/-- Two backlog clients, used for the priority-zero counterexample. -/
def dbC7 : List Client := [⟨1, "c1", "backlog", 2⟩, ⟨2, "c2", "backlog", 1⟩]

/-- The store `dbC7` after `PUT id 1 {priority: 0}`. -/
def dbC7After : List Client := [⟨1, "c1", "backlog", 0⟩, ⟨2, "c2", "backlog", 2⟩]

/-- C7 counterexample: a PUT carrying priority 0 is not rejected with a
400: validatePriority (which accepts 0 anyway) is never invoked by the
route, the shift logic runs, and the request returns 200 with a
mutated store. -/
theorem C7_cex :
    validatePriority (some 0) = .valid ∧
    putRoute dbC7 (some 1) none (some 0) = (.ok 200 dbC7After, dbC7After) ∧
    dbC7After ≠ dbC7 :=
  ⟨rfl, by decide, by decide⟩

/-- C7 (amended): for every PUT on an existing client carrying a
priority that is zero or negative, no validation error is raised:
validatePriority accepts the value and the route runs the engine and
answers 200 with whatever the engine produced. -/
theorem C7_no_priority_rejection (db : List Client) (i : Int) (p : Int) (client : Client)
    (hp : p ≤ 0)
    (hfind : db.find? (fun c => c.id == i) = some client) :
    validatePriority (some p) = .valid ∧
    putRoute db (some i) none (some p) =
      (.ok 200 (putEngine db client none (some p)), putEngine db client none (some p)) :=
  ⟨rfl, putRoute_of_find db i client none (some p) hfind⟩

/-- C7 witness: the concrete priority-zero update on `dbC7`. -/
theorem C7_no_priority_rejection_witness :
    validatePriority (some 0) = .valid ∧
    putRoute dbC7 (some 1) none (some 0) =
      (.ok 200 (putEngine dbC7 ⟨1, "c1", "backlog", 2⟩ none (some 0)),
        putEngine dbC7 ⟨1, "c1", "backlog", 2⟩ none (some 0)) :=
  C7_no_priority_rejection dbC7 1 0 ⟨1, "c1", "backlog", 2⟩ (by decide) (by decide)

/-- One backlog client, used for the unknown-status counterexample. -/
def dbC8 : List Client := [⟨1, "c1", "backlog", 1⟩]

/-- The store `dbC8` after `PUT id 1 {status: "unknown"}`. -/
def dbC8After : List Client := [⟨1, "c1", "unknown", 1⟩]

/-- C8 counterexample: a PUT with the non-enumerated status "unknown"
is not rejected with a 400: it answers 200 and moves the client into
the lane "unknown", outside the three enumerated lanes. -/
theorem C8_cex :
    putRoute dbC8 (some 1) (some "unknown") none = (.ok 200 dbC8After, dbC8After) ∧
    dbC8After.find? (fun c => c.id == (1 : Int)) = some ⟨1, "c1", "unknown", 1⟩ :=
  ⟨by decide, by decide⟩

/-- C8 (amended): a GET filter outside the three enumerated lanes is
rejected with 400 InvalidStatus (and a GET mutates nothing); the PUT
route, however, performs no status validation: with any nonempty
status different from the current lane it answers 200 and the updated
client row ends up in exactly that lane. -/
theorem C8_status_validation (db : List Client) (sq : String) (i : Int) (client : Client)
    (h1 : sq ≠ "") (h2 : sq ≠ "backlog") (h3 : sq ≠ "in-progress") (h4 : sq ≠ "complete")
    (hfind : db.find? (fun c => c.id == i) = some client)
    (h5 : sq ≠ client.status) :
    getClients db (some sq) = .err 400 ⟨"Invalid status provided.",
      "Status can only be one of the following: [backlog | in-progress | complete]."⟩ ∧
    putRoute db (some i) (some sq) none =
      (.ok 200 (putEngine db client (some sq) none), putEngine db client (some sq) none) ∧
    ∀ c ∈ putEngine db client (some sq) none, c.id = client.id → c.status = sq := by
  refine ⟨?_, putRoute_of_find db i client (some sq) none hfind, ?_⟩
  · unfold getClients
    dsimp only
    rw [if_pos h1, if_pos ⟨h2, h3, h4⟩]
  · intro c hc hcid
    rw [putEngine_some_def, if_pos ⟨h1, h5⟩, caseA_none_eq db client sq h5] at hc
    obtain ⟨a, ha, rfl⟩ := List.mem_map.mp hc
    by_cases hid : a.id = client.id
    · rw [if_pos hid]
    · exfalso
      rw [if_neg hid, shift_id] at hcid
      exact hid hcid

/-- C8 witness: the unknown-status GET rejection and PUT acceptance on
the concrete store. -/
theorem C8_status_validation_witness :
    getClients dbC8 (some "unknown") = .err 400 ⟨"Invalid status provided.",
      "Status can only be one of the following: [backlog | in-progress | complete]."⟩ ∧
    putRoute dbC8 (some 1) (some "unknown") none =
      (.ok 200 (putEngine dbC8 ⟨1, "c1", "backlog", 1⟩ (some "unknown") none),
        putEngine dbC8 ⟨1, "c1", "backlog", 1⟩ (some "unknown") none) ∧
    ∀ c ∈ putEngine dbC8 ⟨1, "c1", "backlog", 1⟩ (some "unknown") none,
      c.id = 1 → c.status = "unknown" :=
  C8_status_validation dbC8 "unknown" 1 ⟨1, "c1", "backlog", 1⟩ (by decide) (by decide)
    (by decide) (by decide) (by decide) (by decide)

/-- C9: a PUT whose integer id resolves to no client is answered with
HTTP 400 and long message about the missing client, and the store is
left unchanged — the engine never runs. -/
theorem C9_put_unknown_id (db : List Client) (i : Int) (st : Option String)
    (pr : Option Int)
    (h : db.find? (fun c => c.id == i) = none) :
    putRoute db (some i) st pr =
      (.err 400 ⟨"Invalid id provided.", "Cannot find client with that id."⟩, db) := by
  unfold putRoute validateId
  dsimp only
  rw [h]

/-- C9 witness, spec Scenario 5: a PUT on the non-existent id 999. -/
theorem C9_put_unknown_id_witness :
    putRoute dbCex (some 999) none none =
      (.err 400 ⟨"Invalid id provided.", "Cannot find client with that id."⟩, dbCex) :=
  C9_put_unknown_id dbCex 999 none none (by decide)

/-! Field-preservation lemmas for the fused row maps. -/

lemma FA_name (client : Client) (s : String) (p : Int) (c : Client) :
    ((if c.id = client.id then { c with status := s, priority := p }
      else if c.status = client.status ∧ client.priority < c.priority then
        { c with priority := c.priority - 1 }
      else if c.status = s ∧ p ≤ c.priority then { c with priority := c.priority + 1 }
      else c) : Client).name = c.name := by
  by_cases hid : c.id = client.id
  · rw [if_pos hid]
  · rw [if_neg hid]
    by_cases h1 : c.status = client.status ∧ client.priority < c.priority
    · rw [if_pos h1]
    · rw [if_neg h1]
      by_cases h2 : c.status = s ∧ p ≤ c.priority
      · rw [if_pos h2]
      · rw [if_neg h2]

lemma FA_status (client : Client) (s : String) (p : Int) (c : Client)
    (hid : c.id ≠ client.id) :
    ((if c.id = client.id then { c with status := s, priority := p }
      else if c.status = client.status ∧ client.priority < c.priority then
        { c with priority := c.priority - 1 }
      else if c.status = s ∧ p ≤ c.priority then { c with priority := c.priority + 1 }
      else c) : Client).status = c.status := by
  rw [if_neg hid]
  by_cases h1 : c.status = client.status ∧ client.priority < c.priority
  · rw [if_pos h1]
  · rw [if_neg h1]
    by_cases h2 : c.status = s ∧ p ≤ c.priority
    · rw [if_pos h2]
    · rw [if_neg h2]

lemma FA_pr_old (client : Client) (s : String) (p : Int) (c : Client)
    (hid : c.id ≠ client.id) (hcs : c.status = client.status) (hsne : s ≠ client.status) :
    ((if c.id = client.id then { c with status := s, priority := p }
      else if c.status = client.status ∧ client.priority < c.priority then
        { c with priority := c.priority - 1 }
      else if c.status = s ∧ p ≤ c.priority then { c with priority := c.priority + 1 }
      else c) : Client).priority
      = if client.priority < c.priority then c.priority - 1 else c.priority := by
  rw [if_neg hid]
  by_cases h1 : client.priority < c.priority
  · rw [if_pos ⟨hcs, h1⟩, if_pos h1]
  · rw [if_neg (fun hh => h1 hh.2),
      if_neg (show ¬ (c.status = s ∧ p ≤ c.priority) from fun hh => hsne (hh.1 ▸ hcs)),
      if_neg h1]

lemma FA_pr_dest (client : Client) (s : String) (p : Int) (c : Client)
    (hid : c.id ≠ client.id) (hcs : c.status = s) (hso : s ≠ client.status) :
    ((if c.id = client.id then { c with status := s, priority := p }
      else if c.status = client.status ∧ client.priority < c.priority then
        { c with priority := c.priority - 1 }
      else if c.status = s ∧ p ≤ c.priority then { c with priority := c.priority + 1 }
      else c) : Client).priority
      = if p ≤ c.priority then c.priority + 1 else c.priority := by
  rw [if_neg hid, if_neg (show ¬ (c.status = client.status ∧ client.priority < c.priority)
    from fun hh => hso (hcs ▸ hh.1))]
  by_cases h2 : p ≤ c.priority
  · rw [if_pos ⟨hcs, h2⟩, if_pos h2]
  · rw [if_neg (fun hh => h2 hh.2), if_neg h2]

lemma FA_frame (client : Client) (s : String) (p : Int) (c : Client)
    (hid : c.id ≠ client.id) (h1 : c.status ≠ client.status) (h2 : c.status ≠ s) :
    (if c.id = client.id then { c with status := s, priority := p }
      else if c.status = client.status ∧ client.priority < c.priority then
        { c with priority := c.priority - 1 }
      else if c.status = s ∧ p ≤ c.priority then { c with priority := c.priority + 1 }
      else c) = c := by
  rw [if_neg hid, if_neg (fun hh => h1 hh.1), if_neg (fun hh => h2 hh.1)]

lemma FAN_name (client : Client) (s : String) (v : Int) (c : Client) :
    ((if c.id = client.id then { c with status := s, priority := v }
      else if c.status = client.status ∧ client.priority < c.priority then
        { c with priority := c.priority - 1 }
      else c) : Client).name = c.name := by
  by_cases hid : c.id = client.id
  · rw [if_pos hid]
  · rw [if_neg hid]
    by_cases h1 : c.status = client.status ∧ client.priority < c.priority
    · rw [if_pos h1]
    · rw [if_neg h1]

lemma FAN_status (client : Client) (s : String) (v : Int) (c : Client)
    (hid : c.id ≠ client.id) :
    ((if c.id = client.id then { c with status := s, priority := v }
      else if c.status = client.status ∧ client.priority < c.priority then
        { c with priority := c.priority - 1 }
      else c) : Client).status = c.status := by
  rw [if_neg hid]
  by_cases h1 : c.status = client.status ∧ client.priority < c.priority
  · rw [if_pos h1]
  · rw [if_neg h1]

lemma FAN_pr_old (client : Client) (s : String) (v : Int) (c : Client)
    (hid : c.id ≠ client.id) (hcs : c.status = client.status) :
    ((if c.id = client.id then { c with status := s, priority := v }
      else if c.status = client.status ∧ client.priority < c.priority then
        { c with priority := c.priority - 1 }
      else c) : Client).priority
      = if client.priority < c.priority then c.priority - 1 else c.priority := by
  rw [if_neg hid]
  by_cases h1 : client.priority < c.priority
  · rw [if_pos ⟨hcs, h1⟩, if_pos h1]
  · rw [if_neg (fun hh => h1 hh.2), if_neg h1]

lemma FAN_frame (client : Client) (s : String) (v : Int) (c : Client)
    (hid : c.id ≠ client.id) (h1 : c.status ≠ client.status) :
    (if c.id = client.id then { c with status := s, priority := v }
      else if c.status = client.status ∧ client.priority < c.priority then
        { c with priority := c.priority - 1 }
      else c) = c := by
  rw [if_neg hid, if_neg (fun hh => h1 hh.1)]

lemma FB_name (client : Client) (p : Int) (c : Client) :
    ((if c.id = client.id then { c with priority := p }
      else if c.status = client.status ∧ client.priority < c.priority ∧ c.priority ≤ p then
        { c with priority := c.priority - 1 }
      else if c.status = client.status ∧ p ≤ c.priority ∧ c.priority < client.priority then
        { c with priority := c.priority + 1 }
      else c) : Client).name = c.name := by
  by_cases hid : c.id = client.id
  · rw [if_pos hid]
  · rw [if_neg hid]
    by_cases h1 : c.status = client.status ∧ client.priority < c.priority ∧ c.priority ≤ p
    · rw [if_pos h1]
    · rw [if_neg h1]
      by_cases h2 : c.status = client.status ∧ p ≤ c.priority ∧ c.priority < client.priority
      · rw [if_pos h2]
      · rw [if_neg h2]

lemma FB_frame (client : Client) (p : Int) (c : Client)
    (hid : c.id ≠ client.id) (h1 : c.status ≠ client.status) :
    (if c.id = client.id then { c with priority := p }
      else if c.status = client.status ∧ client.priority < c.priority ∧ c.priority ≤ p then
        { c with priority := c.priority - 1 }
      else if c.status = client.status ∧ p ≤ c.priority ∧ c.priority < client.priority then
        { c with priority := c.priority + 1 }
      else c) = c := by
  rw [if_neg hid, if_neg (fun hh => h1 hh.1), if_neg (fun hh => h1 hh.1)]

/-! Positionwise relations between a list and its image under a map. -/

lemma forall2_map_self {R : Client → Client → Prop} {F : Client → Client} :
    ∀ {l : List Client}, (∀ a ∈ l, R a (F a)) → List.Forall₂ R l (l.map F)
  | [], _ => List.Forall₂.nil
  | a :: t, h => List.Forall₂.cons (h a (List.mem_cons_self a t))
      (forall2_map_self (fun x hx => h x (List.mem_cons_of_mem a hx)))

lemma forall2_refl_self {R : Client → Client → Prop} :
    ∀ {l : List Client}, (∀ a ∈ l, R a a) → List.Forall₂ R l l
  | [], _ => List.Forall₂.nil
  | a :: t, h => List.Forall₂.cons (h a (List.mem_cons_self a t))
      (forall2_refl_self (fun x hx => h x (List.mem_cons_of_mem a hx)))

/-- Frame property of the same-lane branch: ids and names never
change, and rows outside the lane of the updated client are entirely
unchanged. -/
lemma sameLane_frame (db : List Client) (client : Client) (pr : Option Int)
    (hids : (db.map (fun c => c.id)).Nodup) (hmem : client ∈ db) :
    List.Forall₂ (fun a b => b.id = a.id ∧ b.name = a.name ∧
      (a.status ≠ client.status → b.status = a.status ∧ b.priority = a.priority))
      db (sameLane db client pr) := by
  cases pr with
  | none =>
    rw [sameLane_none_def]
    exact forall2_refl_self (fun a _ => ⟨rfl, rfl, fun _ => ⟨rfl, rfl⟩⟩)
  | some p =>
    by_cases hp : p = client.priority
    · rw [sameLane_some_def, if_neg (fun hh => hh hp)]
      exact forall2_refl_self (fun a _ => ⟨rfl, rfl, fun _ => ⟨rfl, rfl⟩⟩)
    · rw [sameLane_some_eq db client p hp]
      apply forall2_map_self
      intro a ha
      by_cases hid : a.id = client.id
      · have haq : a = client := id_unique hids ha hmem hid
        subst haq
        refine ⟨?_, ?_, fun hcs => absurd rfl hcs⟩
        · rw [if_pos rfl]
        · rw [if_pos rfl]
      · refine ⟨FB_id client p a, FB_name client p a, fun h1 => ?_⟩
        rw [FB_frame client p a hid h1]
        exact ⟨rfl, rfl⟩

/-- C10: for every PUT update on an existing client in a store with
unique ids, every row keeps its id and name, and every row whose lane
is neither the old lane of the updated client nor its destination lane
keeps its status and priority as well (positionwise along the list of
rows). -/
theorem C10_frame (db : List Client) (i : Int) (st : Option String) (pr : Option Int)
    (client : Client)
    (hids : (db.map (fun c => c.id)).Nodup)
    (hfind : db.find? (fun c => c.id == i) = some client) :
    List.Forall₂ (fun a b => b.id = a.id ∧ b.name = a.name ∧
      (a.status ≠ client.status → a.status ≠ destLane client st →
        b.status = a.status ∧ b.priority = a.priority))
      db (putRoute db (some i) st pr).2 := by
  have hmem := List.mem_of_find?_eq_some hfind
  rw [putRoute_of_find db i client st pr hfind]
  show List.Forall₂ _ db (putEngine db client st pr)
  cases st with
  | none =>
    rw [putEngine_none_def]
    exact List.Forall₂.imp (fun a b hr => ⟨hr.1, hr.2.1, fun h1 _ => hr.2.2 h1⟩)
      (sameLane_frame db client pr hids hmem)
  | some s =>
    by_cases hc : s ≠ "" ∧ s ≠ client.status
    · have hds : destLane client (some s) = s := by
        dsimp only [destLane]
        rw [if_pos hc]
      rw [putEngine_some_def, if_pos hc]
      cases pr with
      | some p =>
        rw [caseA_some_eq db client s p hc.2]
        apply forall2_map_self
        intro a ha
        by_cases hid : a.id = client.id
        · have haq : a = client := id_unique hids ha hmem hid
          subst haq
          refine ⟨?_, ?_, fun hcs _ => absurd rfl hcs⟩
          · rw [if_pos rfl]
          · rw [if_pos rfl]
        · refine ⟨FA_id client s p a, FA_name client s p a, fun h1 h2 => ?_⟩
          rw [hds] at h2
          rw [FA_frame client s p a hid h1 h2]
          exact ⟨rfl, rfl⟩
      | none =>
        rw [caseA_none_eq db client s hc.2]
        apply forall2_map_self
        intro a ha
        by_cases hid : a.id = client.id
        · have haq : a = client := id_unique hids ha hmem hid
          subst haq
          refine ⟨?_, ?_, fun hcs _ => absurd rfl hcs⟩
          · rw [if_pos rfl]
          · rw [if_pos rfl]
        · refine ⟨FAN_id client s _ a, FAN_name client s _ a, fun h1 _ => ?_⟩
          rw [FAN_frame client s _ a hid h1]
          exact ⟨rfl, rfl⟩
    · rw [putEngine_some_def, if_neg hc]
      exact List.Forall₂.imp (fun a b hr => ⟨hr.1, hr.2.1, fun h1 _ => hr.2.2 h1⟩)
        (sameLane_frame db client pr hids hmem)

/-- C10 witness: the frame property at a concrete lane-change update. -/
theorem C10_frame_witness :
    List.Forall₂ (fun a b => b.id = a.id ∧ b.name = a.name ∧
      (a.status ≠ "backlog" →
        a.status ≠ destLane ⟨1, "P1", "backlog", 1⟩ (some "in-progress") →
        b.status = a.status ∧ b.priority = a.priority))
      dbS1 (putRoute dbS1 (some 1) (some "in-progress") (some 1)).2 :=
  C10_frame dbS1 1 (some "in-progress") (some 1) ⟨1, "P1", "backlog", 1⟩
    (by decide) (by decide)

/-- Filtering after a map that fixes the selected rows and preserves
selection gives back the original filtered rows. -/
lemma filter_map_fix (p : Client → Bool) (G : Client → Client) :
    ∀ (l : List Client), (∀ c ∈ l, p (G c) = p c) → (∀ c ∈ l, p c = true → G c = c) →
      (l.map G).filter p = l.filter p := by
  intro l
  induction l with
  | nil =>
    intro _ _
    rfl
  | cons a t ih =>
    intro h1 h2
    rw [List.map_cons, List.filter_cons, List.filter_cons,
      h1 a (List.mem_cons_self a t)]
    by_cases hpa : p a = true
    · rw [if_pos hpa, if_pos hpa, h2 a (List.mem_cons_self a t) hpa,
        ih (fun c hc => h1 c (List.mem_cons_of_mem a hc))
          (fun c hc => h2 c (List.mem_cons_of_mem a hc))]
    · rw [if_neg hpa, if_neg hpa,
        ih (fun c hc => h1 c (List.mem_cons_of_mem a hc))
          (fun c hc => h2 c (List.mem_cons_of_mem a hc))]

/-- C5: in a store with unique ids whose lane A (the current lane of
the chosen client, at priority 2) is contiguous, moving the client to
another lane B (with or without an explicit priority) and then moving
it back to lane A at priority 2 restores lane A completely: the lane-A
rows of the final store are exactly those of the original store. -/
theorem C5_round_trip (db : List Client) (client : Client) (lB : String) (pr1 : Option Int)
    (client1 : Client)
    (hids : (db.map (fun c => c.id)).Nodup)
    (hmem : client ∈ db)
    (hA : laneContiguous db client.status)
    (hq : client.priority = 2)
    (hAne : client.status ≠ "")
    (hBne : lB ≠ "") (hBA : lB ≠ client.status)
    (hfind1 : (putEngine db client (some lB) pr1).find? (fun c => c.id == client.id)
      = some client1) :
    (putEngine (putEngine db client (some lB) pr1) client1
        (some client.status) (some 2)).filter (fun c => c.status == client.status)
      = db.filter (fun c => c.status == client.status) := by
  have hmemfind : db.find? (fun c => c.id == client.id) = some client :=
    find?_id_self hids hmem
  have huniq : ∀ c ∈ db, c.id ≠ client.id → c.status = client.status → c.priority ≠ 2 := by
    intro c hc hcid hcs h2
    exact hcid (congrArg Client.id
      (lane_priority_unique hA hc hmem hcs rfl (by rw [h2, hq])))
  obtain ⟨F1, v1, hE1, hcl1, hid1, hkeep1⟩ :
      ∃ (F1 : Client → Client) (v1 : Int),
        putEngine db client (some lB) pr1 = db.map F1 ∧
        F1 client = { client with status := lB, priority := v1 } ∧
        (∀ c, (F1 c).id = c.id) ∧
        (∀ c, c.id ≠ client.id → (F1 c).status = c.status ∧ (F1 c).name = c.name ∧
          (c.status = client.status →
            (F1 c).priority
              = if client.priority < c.priority then c.priority - 1 else c.priority)) := by
    cases pr1 with
    | some p =>
      refine ⟨fun c =>
        if c.id = client.id then { c with status := lB, priority := p }
        else if c.status = client.status ∧ client.priority < c.priority then
          { c with priority := c.priority - 1 }
        else if c.status = lB ∧ p ≤ c.priority then { c with priority := c.priority + 1 }
        else c, p, ?_, ?_, fun c => FA_id client lB p c, fun c hcid =>
          ⟨FA_status client lB p c hcid, FA_name client lB p c,
            fun hcs => FA_pr_old client lB p c hcid hcs hBA⟩⟩
      · rw [putEngine_some_def, if_pos ⟨hBne, hBA⟩]
        exact caseA_some_eq db client lB p hBA
      · show (if client.id = client.id then { client with status := lB, priority := p }
          else if client.status = client.status ∧ client.priority < client.priority then
            { client with priority := client.priority - 1 }
          else if client.status = lB ∧ p ≤ client.priority then
            { client with priority := client.priority + 1 }
          else client) = { client with status := lB, priority := p }
        rw [if_pos rfl]
    | none =>
      refine ⟨fun c =>
        if c.id = client.id then
          { c with status := lB, priority := jsOrZero (maxPriorityInLane db lB) + 1 }
        else if c.status = client.status ∧ client.priority < c.priority then
          { c with priority := c.priority - 1 }
        else c, jsOrZero (maxPriorityInLane db lB) + 1, ?_, ?_,
          fun c => FAN_id client lB (jsOrZero (maxPriorityInLane db lB) + 1) c,
          fun c hcid =>
          ⟨FAN_status client lB (jsOrZero (maxPriorityInLane db lB) + 1) c hcid,
            FAN_name client lB (jsOrZero (maxPriorityInLane db lB) + 1) c,
            fun hcs => FAN_pr_old client lB (jsOrZero (maxPriorityInLane db lB) + 1)
              c hcid hcs⟩⟩
      · rw [putEngine_some_def, if_pos ⟨hBne, hBA⟩]
        exact caseA_none_eq db client lB hBA
      · show (if client.id = client.id then
            { client with status := lB, priority := jsOrZero (maxPriorityInLane db lB) + 1 }
          else if client.status = client.status ∧ client.priority < client.priority then
            { client with priority := client.priority - 1 }
          else client)
          = { client with status := lB, priority := jsOrZero (maxPriorityInLane db lB) + 1 }
        rw [if_pos rfl]
  have hc1 : client1 = { client with status := lB, priority := v1 } := by
    rw [hE1, find?_map_id hid1, hmemfind] at hfind1
    have hsome : some (F1 client) = some client1 := hfind1
    rw [hcl1] at hsome
    exact (Option.some.inj hsome).symm
  subst hc1
  have hA2 : client.status ≠ ({ client with status := lB, priority := v1 } : Client).status :=
    fun h => hBA h.symm
  rw [hE1, putEngine_some_def, if_pos ⟨hAne, hA2⟩,
    caseA_some_eq (db.map F1) { client with status := lB, priority := v1 }
      client.status 2 hA2, List.map_map]
  apply filter_map_fix
  · intro c hc
    simp only [Function.comp_apply]
    by_cases hcid : c.id = client.id
    · have hceq : c = client := id_unique hids hc hmem hcid
      subst hceq
      rw [hcl1, if_pos rfl]
    · have hxid : (F1 c).id ≠ ({ client with status := lB, priority := v1 } : Client).id := by
        rw [hid1 c]
        exact hcid
      rw [FA_status { client with status := lB, priority := v1 } client.status 2 (F1 c) hxid,
        (hkeep1 c hcid).1]
  · intro c hc hpc
    have hcs : c.status = client.status := by simpa using hpc
    simp only [Function.comp_apply]
    by_cases hcid : c.id = client.id
    · have hceq : c = client := id_unique hids hc hmem hcid
      subst hceq
      rw [hcl1, if_pos rfl, ← hq]
    · have hk := hkeep1 c hcid
      have hxid : (F1 c).id ≠ ({ client with status := lB, priority := v1 } : Client).id := by
        rw [hid1 c]
        exact hcid
      have hxs : (F1 c).status = client.status := by
        rw [hk.1, hcs]
      apply Client.ext
      · rw [FA_id { client with status := lB, priority := v1 } client.status 2 (F1 c),
          hid1 c]
      · rw [FA_name { client with status := lB, priority := v1 } client.status 2 (F1 c),
          hk.2.1]
      · rw [FA_status { client with status := lB, priority := v1 } client.status 2 (F1 c)
          hxid, hk.1]
      · rw [FA_pr_dest { client with status := lB, priority := v1 } client.status 2 (F1 c)
          hxid hxs (fun h => hBA h.symm), hk.2.2 hcs, hq]
        have hne2 : c.priority ≠ 2 := huniq c hc hcid hcs
        split_ifs <;> omega

/-- C5 witness: moving P2 (backlog priority 2) to in-progress and back
to backlog priority 2 restores the backlog lane of `dbS1`. -/
theorem C5_round_trip_witness :
    (putEngine (putEngine dbS1 ⟨2, "P2", "backlog", 2⟩ (some "in-progress") none)
        ⟨2, "P2", "in-progress", 2⟩ (some "backlog") (some 2)).filter
        (fun c => c.status == "backlog")
      = dbS1.filter (fun c => c.status == "backlog") :=
  C5_round_trip dbS1 ⟨2, "P2", "backlog", 2⟩ "in-progress" none ⟨2, "P2", "in-progress", 2⟩
    (by decide) (by decide) (by decide) rfl (by decide) (by decide) (by decide) (by decide)
